import Mathlib

/-!
# Snake game (`script.js`): shallow embedding and verified properties

The script keeps its whole game in module-level variables and mutates them from
`startGame`, `resetGame`, `generateWalls`, `placeFood`, `handleInput`, `update`, `draw`,
`createParticles`, `gameOver` and `handleSwipe`.  Here the variables are the fields of one
record `State` and every function is a state transformer.

* `TILE_COUNT` is `canvas.width / GRID_SIZE`; the canvas element belongs to the page, so the
  tile count is the integer parameter `N` of every function that reads it.
* `Math.random()` is a list of samples, each a rational in `[0,1)`, consumed left to right.
  A function that draws samples returns the unread rest.  A rejection loop that reads the
  whole list without accepting a sample ends in `Fault.noSamples`: on that sequence the loop
  has not terminated.
* Reading `snake[0].x` on an empty array throws; that is `Fault.typeError`.
* Numbers are exact: coordinates and the score are integers, particle fields are rationals.
* Canvas drawing and the text of page elements are outputs only and are left out.
-/

namespace Snake

/-! ## Data -/

/-- An object with fields `x` and `y`: a grid cell or a velocity. -/
structure Point where
  x : Int
  y : Int
deriving DecidableEq, Repr

/-- One value returned by `Math.random()`: a number in `[0,1)`. -/
abbrev Sample := {q : Rat // 0 ≤ q ∧ q < 1}

/-- An entry of the `particles` array. -/
structure Particle where
  x : Rat
  y : Rat
  vx : Rat
  vy : Rat
  life : Rat
  color : String
  size : Rat
deriving DecidableEq, Repr

/-- The value held by the variable `highScore`: `localStorage.getItem(..) || 0` is either the
stored string or the number `0`, and `gameOver` assigns it the number `score`. -/
inductive HighScore where
  | num (n : Int)
  | str (t : String)
deriving DecidableEq, Repr

/-- The module-level variables of the script, with the `snakeHighScore` entry of
`localStorage` as the field `stored`. -/
structure State where
  score : Int
  highScore : HighScore
  stored : Option String
  isGameRunning : Bool
  snake : List Point
  food : Point
  walls : List Point
  velocity : Point
  nextVelocity : Point
  particles : List Particle
deriving DecidableEq, Repr

/-- How a call can fail to return a state. -/
inductive Fault where
  | noSamples
  | typeError
deriving DecidableEq, Repr

deriving instance DecidableEq for Except

/-! ## Numeric value of a string (the coercion in `score > highScore`) -/

/-- The result of converting a string to a number. -/
inductive JSNumber where
  | finite (q : Rat)
  | posInf
  | negInf
  | nan
deriving DecidableEq, Repr

/-- White space and line terminators that the string-to-number conversion trims. -/
def isStrWhiteSpace (c : Char) : Bool :=
  decide (c.toNat ∈ [0x09, 0x0A, 0x0B, 0x0C, 0x0D, 0x20, 0xA0, 0x1680, 0x2028, 0x2029,
    0x202F, 0x205F, 0x3000, 0xFEFF]) || (decide (0x2000 ≤ c.toNat) && decide (c.toNat ≤ 0x200A))

/-- The value of one digit character, up to base 16. -/
def digitValue (c : Char) : Option Nat :=
  if 48 ≤ c.toNat ∧ c.toNat ≤ 57 then some (c.toNat - 48)
  else if 97 ≤ c.toNat ∧ c.toNat ≤ 102 then some (c.toNat - 87)
  else if 65 ≤ c.toNat ∧ c.toNat ≤ 70 then some (c.toNat - 55)
  else none

/-- The value of a non-empty run of digits of the given base; `none` on any other text. -/
def readDigits (base : Nat) (cs : List Char) : Option Nat :=
  if cs.isEmpty then none
  else cs.foldlM (fun acc c =>
    match digitValue c with
    | some d => if d < base then some (acc * base + d) else none
    | none => none) 0

/-- The exponent part `e±ddd` of a decimal literal, or the empty rest. -/
def readExponent (cs : List Char) : Option Int :=
  match cs with
  | [] => some 0
  | c :: rest =>
    if c = 'e' ∨ c = 'E' then
      match rest with
      | '+' :: ds => (readDigits 10 ds).map Int.ofNat
      | '-' :: ds => (readDigits 10 ds).map (fun n => -Int.ofNat n)
      | ds => (readDigits 10 ds).map Int.ofNat
    else none

/-- An unsigned decimal literal: `Infinity`, `ddd`, `ddd.`, `ddd.ddd` or `.ddd`, each of the
last four with an optional exponent. -/
def readUnsignedDecimal (cs : List Char) : JSNumber :=
  if cs = "Infinity".toList then JSNumber.posInf
  else
    let ip := cs.takeWhile Char.isDigit
    let r1 := cs.dropWhile Char.isDigit
    let hasDot := r1.head? = some '.'
    let fp := if hasDot then r1.tail.takeWhile Char.isDigit else []
    let r2 := if hasDot then r1.tail.dropWhile Char.isDigit else r1
    if ip.isEmpty ∧ fp.isEmpty then JSNumber.nan
    else
      match readExponent r2 with
      | none => JSNumber.nan
      | some e =>
        let iv : Rat := ((readDigits 10 ip).getD 0 : Nat)
        let fv : Rat := ((readDigits 10 fp).getD 0 : Nat) / (10 : Rat) ^ fp.length
        JSNumber.finite ((iv + fv) * (10 : Rat) ^ e)

/-- Negation of a converted number. -/
def JSNumber.neg : JSNumber → JSNumber
  | JSNumber.finite q => JSNumber.finite (-q)
  | JSNumber.posInf => JSNumber.negInf
  | JSNumber.negInf => JSNumber.posInf
  | JSNumber.nan => JSNumber.nan

/-- A trimmed numeric literal: empty text is `0`; `0x`, `0o`, `0b` introduce an unsigned
integer in base 16, 8, 2; anything else is an optionally signed decimal literal. -/
def readNumericLiteral (cs : List Char) : JSNumber :=
  match cs with
  | [] => JSNumber.finite 0
  | '0' :: 'x' :: ds | '0' :: 'X' :: ds =>
    match readDigits 16 ds with
    | some n => JSNumber.finite n
    | none => JSNumber.nan
  | '0' :: 'o' :: ds | '0' :: 'O' :: ds =>
    match readDigits 8 ds with
    | some n => JSNumber.finite n
    | none => JSNumber.nan
  | '0' :: 'b' :: ds | '0' :: 'B' :: ds =>
    match readDigits 2 ds with
    | some n => JSNumber.finite n
    | none => JSNumber.nan
  | '+' :: ds => readUnsignedDecimal ds
  | '-' :: ds => (readUnsignedDecimal ds).neg
  | ds => readUnsignedDecimal ds

/-- The number a string converts to when it meets a number in a comparison. -/
def stringToNumber (t : String) : JSNumber :=
  readNumericLiteral
    (((t.toList.dropWhile isStrWhiteSpace).reverse.dropWhile isStrWhiteSpace).reverse)

/-- The test `score > highScore`: a string high score is converted to a number first, and a
comparison with `NaN` is false. -/
def scoreExceeds (score : Int) : HighScore → Bool
  | HighScore.num h => decide (h < score)
  | HighScore.str t =>
    match stringToNumber t with
    | JSNumber.finite q => decide (q < (score : Rat))
    | JSNumber.posInf => false
    | JSNumber.negInf => true
    | JSNumber.nan => false

/-! ## Grid and sampling -/

/-- The two wrap statements `if (c < 0) c = TILE_COUNT - 1; if (c >= TILE_COUNT) c = 0;`
that `update` applies to each coordinate of the new head. -/
def wrap (N : Int) (c : Int) : Int :=
  let c1 := if c < 0 then N - 1 else c
  if c1 ≥ N then 0 else c1

/-- The expression `Math.floor(Math.random() * TILE_COUNT)`. -/
def randomCoord (N : Int) (r : Sample) : Int :=
  Rat.floor (r.val * (N : Rat))

/-- The scan `for (let c of cells) if (p.x === c.x && p.y === c.y) ...`: does `p` coincide
with some entry of `cells`? -/
def hits (p : Point) (cells : List Point) : Bool :=
  cells.any (fun c => decide (p.x = c.x) && decide (p.y = c.y))

/-- The expression `Math.abs(a.x - b.x) + Math.abs(a.y - b.y)`. -/
def manhattan (a b : Point) : Int :=
  |a.x - b.x| + |a.y - b.y|

/-! ## Level generation -/

/-- The `while (!safe)` loop of `generateWalls` for one wall: draw a cell; it is unsafe when
it lies on a snake segment or closer than Manhattan distance 3 to `snake[0]`. -/
def sampleWall (N : Int) (snake : List Point) : List Sample → Except Fault (Point × List Sample)
  | rx :: ry :: rest =>
    let wall : Point := ⟨randomCoord N rx, randomCoord N ry⟩
    if hits wall snake then sampleWall N snake rest
    else
      match snake with
      | [] => Except.error Fault.typeError
      | h :: _ =>
        if manhattan wall h < 3 then sampleWall N snake rest
        else Except.ok (wall, rest)
  | _ => Except.error Fault.noSamples

/-- The `for (let i = 0; i < wallCount; i++)` loop of `generateWalls` with `count` rounds
left: each round pushes one sampled wall. -/
def generateWallsLoop (N : Int) (snake : List Point) :
    Nat → List Point → List Sample → Except Fault (List Point × List Sample)
  | 0, walls, rs => Except.ok (walls, rs)
  | count + 1, walls, rs =>
    match sampleWall N snake rs with
    | Except.error e => Except.error e
    | Except.ok (wall, rest) => generateWallsLoop N snake count (walls ++ [wall]) rest

/-- The constant `wallCount`. -/
def wallCount : Nat := 15

/-- The function `generateWalls`: empty the wall list, then push `wallCount` walls. -/
def generateWalls (N : Int) (rs : List Sample) (s : State) : Except Fault (State × List Sample) :=
  match generateWallsLoop N s.snake wallCount [] rs with
  | Except.error e => Except.error e
  | Except.ok (walls, rest) => Except.ok ({ s with walls := walls }, rest)

/-- The `while (!validPosition)` loop of `placeFood`: draw a cell until it lies on no snake
segment and on no wall. -/
def placeFoodLoop (N : Int) (snake walls : List Point) :
    List Sample → Except Fault (Point × List Sample)
  | rx :: ry :: rest =>
    let food : Point := ⟨randomCoord N rx, randomCoord N ry⟩
    if hits food snake then placeFoodLoop N snake walls rest
    else if hits food walls then placeFoodLoop N snake walls rest
    else Except.ok (food, rest)
  | _ => Except.error Fault.noSamples

/-- The function `placeFood`. -/
def placeFood (N : Int) (rs : List Sample) (s : State) : Except Fault (State × List Sample) :=
  match placeFoodLoop N s.snake s.walls rs with
  | Except.error e => Except.error e
  | Except.ok (food, rest) => Except.ok ({ s with food := food }, rest)

/-- The function `resetGame`. -/
def resetGame (N : Int) (rs : List Sample) (s : State) : Except Fault (State × List Sample) :=
  let s1 : State := { s with
    snake := [⟨10, 15⟩, ⟨10, 16⟩, ⟨10, 17⟩]
    velocity := ⟨0, -1⟩
    nextVelocity := ⟨0, -1⟩
    score := 0
    particles := [] }
  match generateWalls N rs s1 with
  | Except.error e => Except.error e
  | Except.ok (s2, rest) => placeFood N rest s2

/-- The function `startGame`. -/
def startGame (N : Int) (rs : List Sample) (s : State) : Except Fault (State × List Sample) :=
  if s.isGameRunning then Except.ok (s, rs)
  else
    match resetGame N rs s with
    | Except.error e => Except.error e
    | Except.ok (s1, rest) => Except.ok ({ s1 with isGameRunning := true }, rest)

/-! ## Particles -/

/-- One particle as `createParticles` builds it from three samples. -/
def newParticle (x y : Int) (color : String) (r1 r2 r3 : Sample) : Particle :=
  { x := (x : Rat) + 1 / 2
    y := (y : Rat) + 1 / 2
    vx := (r1.val - 1 / 2) * (1 / 2)
    vy := (r2.val - 1 / 2) * (1 / 2)
    life := 1
    color := color
    size := r3.val * 5 + 2 }

/-- The loop of `createParticles` with `count` rounds left. -/
def createParticlesLoop (x y : Int) (color : String) :
    Nat → List Particle → List Sample → Except Fault (List Particle × List Sample)
  | 0, ps, rs => Except.ok (ps, rs)
  | count + 1, ps, r1 :: r2 :: r3 :: rest =>
    createParticlesLoop x y color count (ps ++ [newParticle x y color r1 r2 r3]) rest
  | _ + 1, _, _ => Except.error Fault.noSamples

/-- The function `createParticles`: push ten particles. -/
def createParticles (x y : Int) (color : String) (rs : List Sample) (s : State) :
    Except Fault (State × List Sample) :=
  match createParticlesLoop x y color 10 s.particles rs with
  | Except.error e => Except.error e
  | Except.ok (ps, rest) => Except.ok ({ s with particles := ps }, rest)

/-- The first three statements of the particle callback in `draw`. -/
def stepParticle (p : Particle) : Particle :=
  { p with x := p.x + p.vx, y := p.y + p.vy, life := p.life - 1 / 20 }

/-- The call `particles.forEach((particle, index) => ...)` of `draw`, with `count` indices
left to visit and `index` the next one.  `forEach` fixes the number of indices when it
starts and skips an index that the array no longer has; the callback moves and fades the
particle and, when its life is used up, removes it with `particles.splice(index, 1)`. -/
def particleLoop : Nat → Nat → List Particle → List Particle
  | 0, _, ps => ps
  | count + 1, index, ps =>
    match ps[index]? with
    | none => particleLoop count (index + 1) ps
    | some p =>
      if (stepParticle p).life ≤ 0 then particleLoop count (index + 1) (ps.eraseIdx index)
      else particleLoop count (index + 1) (ps.set index (stepParticle p))

/-- The function `draw`; only the particle array is state. -/
def draw (s : State) : State :=
  { s with particles := particleLoop s.particles.length 0 s.particles }

/-! ## The tick -/

/-- The function `gameOver`. -/
def gameOver (s : State) : State :=
  let s1 : State := { s with isGameRunning := false }
  if scoreExceeds s1.score s1.highScore then
    { s1 with highScore := HighScore.num s1.score, stored := some (toString s1.score) }
  else s1

/-- The new head that `update` computes from a head cell and a velocity. -/
def nextHead (N : Int) (h v : Point) : Point :=
  ⟨wrap N (h.x + v.x), wrap N (h.y + v.y)⟩

/-- The function `update`. -/
def update (N : Int) (rs : List Sample) (s : State) : Except Fault (State × List Sample) :=
  let s1 : State := { s with velocity := s.nextVelocity }
  match s1.snake with
  | [] => Except.error Fault.typeError
  | h :: _ =>
    let head := nextHead N h s1.velocity
    if hits head s1.walls then Except.ok (gameOver s1, rs)
    else if hits head s1.snake then Except.ok (gameOver s1, rs)
    else
      let s2 : State := { s1 with snake := head :: s1.snake }
      if head.x = s2.food.x ∧ head.y = s2.food.y then
        let s3 : State := { s2 with score := s2.score + 10 }
        match createParticles s3.food.x s3.food.y "#ff0055" rs s3 with
        | Except.error e => Except.error e
        | Except.ok (s4, rs1) =>
          match placeFood N rs1 s4 with
          | Except.error e => Except.error e
          | Except.ok (s5, rs2) => Except.ok (draw s5, rs2)
      else
        Except.ok (draw { s2 with snake := s2.snake.dropLast }, rs)

/-! ## Input -/

/-- The function `handleInput`, applied to the `key` of the event. -/
def handleInput (key : String) (s : State) : State :=
  if !s.isGameRunning then s
  else if key = "ArrowUp" then
    (if s.velocity.y ≠ 1 then { s with nextVelocity := ⟨0, -1⟩ } else s)
  else if key = "ArrowDown" then
    (if s.velocity.y ≠ -1 then { s with nextVelocity := ⟨0, 1⟩ } else s)
  else if key = "ArrowLeft" then
    (if s.velocity.x ≠ 1 then { s with nextVelocity := ⟨-1, 0⟩ } else s)
  else if key = "ArrowRight" then
    (if s.velocity.x ≠ -1 then { s with nextVelocity := ⟨1, 0⟩ } else s)
  else s

/-- The function `handleSwipe`. -/
def handleSwipe (startX startY endX endY : Rat) (s : State) : State :=
  let diffX := endX - startX
  let diffY := endY - startY
  if |diffX| > |diffY| then
    if diffX > 0 ∧ s.velocity.x ≠ -1 then { s with nextVelocity := ⟨1, 0⟩ }
    else if diffX < 0 ∧ s.velocity.x ≠ 1 then { s with nextVelocity := ⟨-1, 0⟩ }
    else s
  else
    if diffY > 0 ∧ s.velocity.y ≠ -1 then { s with nextVelocity := ⟨0, 1⟩ }
    else if diffY < 0 ∧ s.velocity.y ≠ 1 then { s with nextVelocity := ⟨0, -1⟩ }
    else s

/-! ## Runs of the program -/

/-- The variables as their declarations initialise them, for a given stored high score:
`highScore` is `localStorage.getItem('snakeHighScore') || 0`, so a missing entry and the
empty string give the number `0` and any other string is kept as it is. -/
def loadState (stored : Option String) : State :=
  { score := 0
    highScore :=
      match stored with
      | none => HighScore.num 0
      | some t => if t = "" then HighScore.num 0 else HighScore.str t
    stored := stored
    isGameRunning := false
    snake := []
    food := ⟨0, 0⟩
    walls := []
    velocity := ⟨0, 0⟩
    nextVelocity := ⟨0, 0⟩
    particles := [] }

/-- The last two statements of the script, `resetGame(); draw();`, run on the initial
variables. -/
def boot (N : Int) (stored : Option String) (rs : List Sample) :
    Except Fault (State × List Sample) :=
  match resetGame N rs (loadState stored) with
  | Except.error e => Except.error e
  | Except.ok (s, rest) => Except.ok (draw s, rest)

/-- What can happen after the script has loaded: the interval timer calls `update`, a key
goes down, a touch ends, the start button is clicked. -/
inductive Event where
  | tick
  | key (k : String)
  | swipe (startX startY endX endY : Rat)
  | start
deriving DecidableEq, Repr

/-- The handler of an event, as a state transformer that may draw samples. -/
def step (N : Int) (e : Event) (rs : List Sample) (s : State) :
    Except Fault (State × List Sample) :=
  match e with
  | Event.tick => update N rs s
  | Event.key k => Except.ok (handleInput k s, rs)
  | Event.swipe sx sy ex ey => Except.ok (handleSwipe sx sy ex ey s, rs)
  | Event.start => startGame N rs s

/-- The states the program can be in between two handler calls: the state the script leaves
after loading, and every state a returning handler call leads to from such a state.  The
handlers are taken as the script defines them, so `update` may be called in any state. -/
inductive Reachable (N : Int) : State → Prop where
  | boot (stored : Option String) (rs rest : List Sample) (s : State)
      (h : boot N stored rs = Except.ok (s, rest)) : Reachable N s
  | step (e : Event) (rs rest : List Sample) (s t : State)
      (hs : Reachable N s) (h : step N e rs s = Except.ok (t, rest)) : Reachable N t

/-! ## Intermediate states of `update` -/

/-- The state `update` works on after its first statement `velocity = nextVelocity`. -/
def commit (s : State) : State :=
  { s with velocity := s.nextVelocity }

/-- The state in which `update` calls `createParticles` when the new head is the food cell:
velocity committed, new head pushed, score raised by 10. -/
def grown (s : State) : State :=
  { commit s with snake := s.food :: s.snake, score := s.score + 10 }

/-! ## Example inputs -/

/-- The sample `0`. -/
def zero : Sample := ⟨0, ⟨le_refl 0, by norm_num⟩⟩

/-- The sample `1/2`; on the 20-tile grid it gives the coordinate `10`. -/
def half : Sample := ⟨1 / 2, ⟨by norm_num, by norm_num⟩⟩

/-- The sample `k/20`; on the 20-tile grid it gives the coordinate `k`. -/
def tile (k : Fin 20) : Sample :=
  ⟨(k.val : Rat) / 20,
    ⟨div_nonneg (Nat.cast_nonneg k.val) (by norm_num),
      (div_lt_one (by norm_num)).2 (by exact_mod_cast k.isLt)⟩⟩

/-- The state of the scenario of C1: the snake of `resetGame` moving up on a board with one
wall and the food away from the snake. -/
def plainExample : State :=
  { score := 30
    highScore := HighScore.num 50
    stored := some "50"
    isGameRunning := true
    snake := [⟨10, 15⟩, ⟨10, 16⟩, ⟨10, 17⟩]
    food := ⟨3, 4⟩
    walls := [⟨0, 0⟩]
    velocity := ⟨0, -1⟩
    nextVelocity := ⟨0, -1⟩
    particles := [] }

/-- A running state whose snake is curled so that its head, moving right, steps onto its own
last cell. -/
def tailBiteExample : State :=
  { score := 10
    highScore := HighScore.num 50
    stored := some "50"
    isGameRunning := true
    snake := [⟨1, 1⟩, ⟨1, 2⟩, ⟨2, 2⟩, ⟨2, 1⟩]
    food := ⟨5, 5⟩
    walls := [⟨0, 0⟩]
    velocity := ⟨0, -1⟩
    nextVelocity := ⟨1, 0⟩
    particles := [] }

/-- A running state whose head, moving up, steps onto a wall. -/
def wallHitExample : State :=
  { score := 20
    highScore := HighScore.num 50
    stored := some "50"
    isGameRunning := true
    snake := [⟨10, 15⟩, ⟨10, 16⟩, ⟨10, 17⟩]
    food := ⟨5, 5⟩
    walls := [⟨0, 0⟩, ⟨10, 14⟩]
    velocity := ⟨0, -1⟩
    nextVelocity := ⟨0, -1⟩
    particles := [] }

/-- A running state whose head, moving up, steps onto the food. -/
def eatExample : State :=
  { score := 20
    highScore := HighScore.num 50
    stored := some "50"
    isGameRunning := true
    snake := [⟨10, 15⟩, ⟨10, 16⟩, ⟨10, 17⟩]
    food := ⟨10, 14⟩
    walls := [⟨0, 0⟩]
    velocity := ⟨0, -1⟩
    nextVelocity := ⟨0, -1⟩
    particles := [] }

/-- Samples for `eatExample`: thirty for the particles, then a food attempt on the wall
`(0,0)`, then the free cell `(10,10)`. -/
def eatSamples : List Sample :=
  List.replicate 30 half ++ [zero, zero, half, half]

/-- A running state on the 2-tile grid: the snake is the cell `(0,0)`, the walls fill the
row `y = 1`, and the head, moving right, steps onto the food at `(1,0)`; after that step
every cell of the grid holds the snake or a wall. -/
def fullBoardExample : State :=
  { score := 0
    highScore := HighScore.num 0
    stored := none
    isGameRunning := true
    snake := [⟨0, 0⟩]
    food := ⟨1, 0⟩
    walls := [⟨0, 1⟩, ⟨1, 1⟩]
    velocity := ⟨1, 0⟩
    nextVelocity := ⟨1, 0⟩
    particles := [] }

/-- One row of the 20-tile grid, walked right to left when `y` is odd and left to right when
`y` is even. -/
def serpentRow (y : Nat) : List Point :=
  if y % 2 = 1 then (List.range 20).reverse.map (fun x => ⟨x, y⟩)
  else (List.range 20).map (fun x => ⟨x, y⟩)

/-- A snake of 384 cells on the 20-tile grid, head first: the cells `(16,0)` to `(19,0)`,
then the rows 1 to 19 in a zigzag. -/
def serpent : List Point :=
  [⟨16, 0⟩, ⟨17, 0⟩, ⟨18, 0⟩, ⟨19, 0⟩] ++
    (List.range 19).foldr (fun i acc => serpentRow (i + 1) ++ acc) []

/-- Fifteen distinct walls: the cells `(0,0)` to `(14,0)`. -/
def rowWalls : List Point :=
  (List.range 15).map (fun x => ⟨x, 0⟩)

/-- A running state on the 20-tile grid late in a game: fifteen walls, the snake `serpent`
moving left, and the food on the one remaining cell `(15,0)`, just left of the head. -/
def crowdedExample : State :=
  { score := 3810
    highScore := HighScore.num 0
    stored := none
    isGameRunning := true
    snake := serpent
    food := ⟨15, 0⟩
    walls := rowWalls
    velocity := ⟨-1, 0⟩
    nextVelocity := ⟨-1, 0⟩
    particles := [] }

/-- The state in which `resetGame` calls `generateWalls` when the script loads with no
stored high score. -/
def resetExample : State :=
  { score := 0
    highScore := HighScore.num 0
    stored := none
    isGameRunning := false
    snake := [⟨10, 15⟩, ⟨10, 16⟩, ⟨10, 17⟩]
    food := ⟨0, 0⟩
    walls := []
    velocity := ⟨0, -1⟩
    nextVelocity := ⟨0, -1⟩
    particles := [] }

/-- Samples for `generateWalls` on the 20-tile grid: the cells `(0,0)`, `(1,0)`, ...,
`(13,0)` and then `(0,0)` once more. -/
def repeatSamples : List Sample :=
  [tile 0, zero, tile 1, zero, tile 2, zero, tile 3, zero, tile 4, zero, tile 5, zero,
    tile 6, zero, tile 7, zero, tile 8, zero, tile 9, zero, tile 10, zero, tile 11, zero,
    tile 12, zero, tile 13, zero, tile 0, zero]

/-- The walls that `repeatSamples` give: fifteen entries, the cell `(0,0)` twice. -/
def repeatWalls : List Point :=
  [⟨0, 0⟩, ⟨1, 0⟩, ⟨2, 0⟩, ⟨3, 0⟩, ⟨4, 0⟩, ⟨5, 0⟩, ⟨6, 0⟩, ⟨7, 0⟩, ⟨8, 0⟩, ⟨9, 0⟩,
    ⟨10, 0⟩, ⟨11, 0⟩, ⟨12, 0⟩, ⟨13, 0⟩, ⟨0, 0⟩]

/-- Samples for `generateWalls` on the 20-tile grid with two rejected attempts first: the
snake cell `(10,15)` and the cell `(10,13)` at distance 2 from the head; then fifteen times
the cell `(0,0)`. -/
def rejectSamples : List Sample :=
  [half, tile 15, half, tile 13] ++ List.replicate 30 zero

/-- Samples for loading the script on the 20-tile grid: the walls of `repeatSamples`, then
the food cell `(10,10)`. -/
def bootSamples : List Sample :=
  repeatSamples ++ [half, half]

/-- The state the script is in after loading with `bootSamples` and no stored high score. -/
def bootExample : State :=
  { resetExample with walls := repeatWalls, food := ⟨10, 10⟩ }

/-! ## Directions and what the input handlers propose -/

/-- The vector pointing the other way. -/
def opposite (v : Point) : Point :=
  ⟨-v.x, -v.y⟩

/-- The four velocities the script assigns: up, down, left, right. -/
def isDirection (v : Point) : Prop :=
  v = ⟨0, -1⟩ ∨ v = ⟨0, 1⟩ ∨ v = ⟨-1, 0⟩ ∨ v = ⟨1, 0⟩

instance (v : Point) : Decidable (isDirection v) :=
  inferInstanceAs (Decidable (v = ⟨0, -1⟩ ∨ v = ⟨0, 1⟩ ∨ v = ⟨-1, 0⟩ ∨ v = ⟨1, 0⟩))

/-- The direction that the `switch` of `handleInput` assigns for a key, if the key is one of
its four cases. -/
def keyDirection (key : String) : Option Point :=
  if key = "ArrowUp" then some ⟨0, -1⟩
  else if key = "ArrowDown" then some ⟨0, 1⟩
  else if key = "ArrowLeft" then some ⟨-1, 0⟩
  else if key = "ArrowRight" then some ⟨1, 0⟩
  else none

/-- The direction that `handleSwipe` assigns for a touch, if any: the sign of the horizontal
displacement when that is the larger one in absolute value, else the sign of the vertical
displacement. -/
def swipeDirection (startX startY endX endY : Rat) : Option Point :=
  if |endX - startX| > |endY - startY| then
    if endX - startX > 0 then some ⟨1, 0⟩
    else if endX - startX < 0 then some ⟨-1, 0⟩
    else none
  else
    if endY - startY > 0 then some ⟨0, 1⟩
    else if endY - startY < 0 then some ⟨0, -1⟩
    else none

/-- The property of the two velocity variables that every handler keeps: both are
directions and the buffered one is not the reverse of the committed one. -/
def velocityInvariant (s : State) : Prop :=
  isDirection s.velocity ∧ isDirection s.nextVelocity ∧ s.nextVelocity ≠ opposite s.velocity

/-- The property of a running game that the second snake cell is the cell the head came
from: the snake has at least two cells, the head lies in the grid, and the second cell is
the head moved one step against the committed velocity, wrapped. -/
def neckInvariant (N : Int) (s : State) : Prop :=
  s.isGameRunning = true →
    ∃ h n rest, s.snake = h :: n :: rest ∧ (0 ≤ h.x ∧ h.x < N) ∧ (0 ≤ h.y ∧ h.y < N) ∧
      n = nextHead N h (opposite s.velocity)

/-! ## Sequences of handler calls -/

/-- A sequence of handler calls, each with the samples it may draw, run from a state; it
stops at the first call that does not return. -/
def run (N : Int) : List (Event × List Sample) → State → Except Fault State
  | [], s => Except.ok s
  | (e, rs) :: more, s =>
    match step N e rs s with
    | Except.error f => Except.error f
    | Except.ok (t, _) => run N more t

/-- The assignments to `velocity` made during a sequence of handler calls, in order:
`some v` for a returning `update`, which commits `v`, and `none` for a `startGame` that
runs `resetGame`. -/
def marks (N : Int) : List (Event × List Sample) → State → List (Option Point)
  | [], _ => []
  | (e, rs) :: more, s =>
    match step N e rs s with
    | Except.error _ => []
    | Except.ok (t, _) =>
      match e with
      | Event.tick => some t.velocity :: marks N more t
      | Event.start =>
        if s.isGameRunning then marks N more t else none :: marks N more t
      | _ => marks N more t

/-- The velocities committed by the returning `update` calls of a sequence, in order. -/
def commits (N : Int) (evs : List (Event × List Sample)) (s : State) : List Point :=
  (marks N evs s).filterMap id

/-- Two consecutive assignments to `velocity` that are both commits of `update` do not
reverse the direction. -/
def noReversal (a b : Option Point) : Prop :=
  ∀ v w, a = some v → b = some w → w ≠ opposite v

/-! ## The two-phase particle update -/

/-- The frame update of the particles as the specification words it: first every particle
is moved by its velocity and loses 0.05 of life, then every particle whose life is `≤ 0` is
removed, the others keeping their order. -/
def twoPhaseParticles (ps : List Particle) : List Particle :=
  (ps.map stepParticle).filter (fun p => decide (¬ p.life ≤ 0))

/-! ## Samples that let `startGame` return -/

/-- The cell that two consecutive samples give. -/
def cellOf (N : Int) (c : Sample × Sample) : Point :=
  ⟨randomCoord N c.1, randomCoord N c.2⟩

/-- A list of sample pairs laid out in the order in which they are drawn. -/
def flatPairs : List (Sample × Sample) → List Sample
  | [] => []
  | c :: more => c.1 :: c.2 :: flatPairs more

/-- The snake that `resetGame` assigns. -/
def resetSnake : List Point :=
  [⟨10, 15⟩, ⟨10, 16⟩, ⟨10, 17⟩]

/-! ## More example inputs -/

/-- The state after the start button is clicked in `bootExample`, with `bootSamples` drawn
again. -/
def startedExample : State :=
  { bootExample with isGameRunning := true }

/-- Samples for `resetGame` on the 20-tile grid: fifteen walls at `(9,17)`, then the food
cell `(10,10)`. -/
def crashSamples : List Sample :=
  flatPairs (List.replicate 15 (tile 9, tile 17)) ++ [half, half]

/-- A game that ends moving down, followed by a restart: start, turn left, tick, turn down,
tick, tick into the wall at `(9,17)`, start again, tick. -/
def crashRun : List (Event × List Sample) :=
  [(Event.start, crashSamples), (Event.key "ArrowLeft", []), (Event.tick, []),
    (Event.key "ArrowDown", []), (Event.tick, []), (Event.tick, []),
    (Event.start, crashSamples), (Event.tick, [])]

/-- Samples for `eatExample`, which tell the ten particles apart by their size: for particle
`i` the velocity samples are `1/2` (no velocity) and the size sample is `i/10`; then the
food cell `(5,5)`. -/
def burstSamples : List Sample :=
  [half, half, tile 0, half, half, tile 2, half, half, tile 4, half, half, tile 6,
    half, half, tile 8, half, half, tile 10, half, half, tile 12, half, half, tile 14,
    half, half, tile 16, half, half, tile 18, tile 5, tile 5]

/-- Nineteen ticks from `eatExample`: the first eats the food and creates ten particles, the
others are plain moves upwards. -/
def burstRun : List (Event × List Sample) :=
  (Event.tick, burstSamples) :: List.replicate 18 (Event.tick, [])

/-- The ten particles of `burstRun` after its nineteen frames: each has life `0.05` left
and size `2 + i/2`. -/
def fadingBatch : List Particle :=
  (List.range 10).map (fun i =>
    { x := 21 / 2, y := 29 / 2, vx := 0, vy := 0, life := 1 / 20, color := "#ff0055",
      size := 2 + (i : Rat) / 2 })

/-- The state after `burstRun`. -/
def fadedExample : State :=
  { eatExample with
    score := 30
    snake := [⟨10, 16⟩, ⟨10, 17⟩, ⟨10, 18⟩, ⟨10, 19⟩]
    food := ⟨5, 5⟩
    particles := fadingBatch }

/-- The particles of `fadingBatch` with an odd index. -/
def fadingSurvivors : List Particle :=
  (List.range 5).map (fun i =>
    { x := 21 / 2, y := 29 / 2, vx := 0, vy := 0, life := 1 / 20, color := "#ff0055",
      size := 2 + ((2 * i + 1 : Nat) : Rat) / 2 })

/-- A game loaded with the text `abc` as stored high score, in which 10 points have been
scored and the head, moving up, is about to hit a wall. -/
def corruptExample : State :=
  { loadState (some "abc") with
    score := 10
    isGameRunning := true
    snake := [⟨10, 15⟩, ⟨10, 16⟩, ⟨10, 17⟩, ⟨10, 18⟩]
    walls := [⟨10, 14⟩]
    food := ⟨5, 5⟩
    velocity := ⟨0, -1⟩
    nextVelocity := ⟨0, -1⟩ }

/-! ## Basic facts -/

theorem hits_iff (p : Point) (cells : List Point) : hits p cells = true ↔ p ∈ cells := by
  unfold hits
  rw [List.any_eq_true]
  constructor
  · rintro ⟨c, hc, h⟩
    simp only [Bool.and_eq_true, decide_eq_true_eq] at h
    have : p = c := by
      cases p; cases c; simp only [Point.mk.injEq]; exact h
    exact this ▸ hc
  · intro h
    exact ⟨p, h, by simp⟩

theorem hits_eq_false_iff (p : Point) (cells : List Point) :
    hits p cells = false ↔ p ∉ cells := by
  rw [← hits_iff, Bool.not_eq_true]

theorem wrap_of_neg (N c : Int) (hc : c < 0) : wrap N c = N - 1 := by
  unfold wrap
  simp only [hc, if_true]
  rw [if_neg]
  omega

theorem wrap_of_ge (N c : Int) (hN : 1 ≤ N) (hc : N ≤ c) : wrap N c = 0 := by
  unfold wrap
  have h0 : ¬ c < 0 := by omega
  simp only [h0, if_false]
  rw [if_pos]
  omega

theorem wrap_of_mem (N c : Int) (h0 : 0 ≤ c) (hc : c < N) : wrap N c = c := by
  unfold wrap
  have h1 : ¬ c < 0 := by omega
  simp only [h1, if_false]
  rw [if_neg]
  omega

theorem wrap_step_eq_emod (N c d : Int) (hN : 1 ≤ N) (h0 : 0 ≤ c) (hc : c < N)
    (hd : d = -1 ∨ d = 0 ∨ d = 1) : wrap N (c + d) = (c + d) % N := by
  rcases hd with rfl | rfl | rfl
  · by_cases hz : c = 0
    · subst hz
      rw [wrap_of_neg N _ (by omega)]
      have : (0 + -1 : Int) = (N - 1) + (-1) * N := by ring
      rw [this, Int.add_mul_emod_self, Int.emod_eq_of_lt (by omega) (by omega)]
    · rw [wrap_of_mem N _ (by omega) (by omega), Int.emod_eq_of_lt (by omega) (by omega)]
  · rw [wrap_of_mem N _ (by omega) (by omega), Int.emod_eq_of_lt (by omega) (by omega)]
  · by_cases hz : c = N - 1
    · subst hz
      rw [wrap_of_ge N _ hN (by omega)]
      have : (N - 1 + 1 : Int) = 0 + 1 * N := by ring
      rw [this, Int.add_mul_emod_self, Int.emod_eq_of_lt (by omega) (by omega)]
    · rw [wrap_of_mem N _ (by omega) (by omega), Int.emod_eq_of_lt (by omega) (by omega)]

/-! ## Frame facts for the sampling functions -/

theorem createParticlesLoop_error (x y : Int) (color : String) (count : Nat) :
    ∀ (ps : List Particle) (rs : List Sample) (e : Fault),
      createParticlesLoop x y color count ps rs = Except.error e → e = Fault.noSamples := by
  induction count with
  | zero =>
    intro ps rs e h
    simp [createParticlesLoop] at h
  | succ n ih =>
    intro ps rs e h
    match rs, h with
    | r1 :: r2 :: r3 :: rest, h =>
      simp only [createParticlesLoop] at h
      exact ih _ _ _ h
    | [], h =>
      simp only [createParticlesLoop, Except.error.injEq] at h
      exact h.symm
    | [_], h =>
      simp only [createParticlesLoop, Except.error.injEq] at h
      exact h.symm
    | [_, _], h =>
      simp only [createParticlesLoop, Except.error.injEq] at h
      exact h.symm

theorem createParticles_error (x y : Int) (color : String) (rs : List Sample) (s : State)
    (e : Fault) (h : createParticles x y color rs s = Except.error e) : e = Fault.noSamples := by
  unfold createParticles at h
  rcases hl : createParticlesLoop x y color 10 s.particles rs with e2 | ⟨ps, rest⟩
  · rw [hl] at h
    simp only [Except.error.injEq] at h
    exact h ▸ createParticlesLoop_error _ _ _ _ _ _ _ hl
  · rw [hl] at h
    exact Except.noConfusion h

theorem createParticles_frame (x y : Int) (color : String) (rs rest : List Sample)
    (s t : State) (h : createParticles x y color rs s = Except.ok (t, rest)) :
    t.snake = s.snake ∧ t.walls = s.walls ∧ t.food = s.food ∧ t.score = s.score ∧
      t.isGameRunning = s.isGameRunning ∧ t.velocity = s.velocity ∧
      t.nextVelocity = s.nextVelocity ∧ t.highScore = s.highScore ∧ t.stored = s.stored := by
  unfold createParticles at h
  rcases hl : createParticlesLoop x y color 10 s.particles rs with e2 | ⟨ps, rest2⟩
  · rw [hl] at h
    exact Except.noConfusion h
  · rw [hl] at h
    simp only [Except.ok.injEq, Prod.mk.injEq] at h
    rw [← h.1]
    exact ⟨rfl, rfl, rfl, rfl, rfl, rfl, rfl, rfl, rfl⟩

theorem placeFoodLoop_error (N : Int) (snake walls : List Point) :
    ∀ (n : Nat) (rs : List Sample) (e : Fault), rs.length ≤ n →
      placeFoodLoop N snake walls rs = Except.error e → e = Fault.noSamples := by
  intro n
  induction n with
  | zero =>
    intro rs e hn h
    have : rs = [] := List.length_eq_zero.1 (Nat.le_zero.1 hn)
    subst this
    simp only [placeFoodLoop, Except.error.injEq] at h
    exact h.symm
  | succ n ih =>
    intro rs e hn h
    match rs, hn, h with
    | [], _, h =>
      simp only [placeFoodLoop, Except.error.injEq] at h
      exact h.symm
    | [_], _, h =>
      simp only [placeFoodLoop, Except.error.injEq] at h
      exact h.symm
    | rx :: ry :: rest, hn, h =>
      have hlen : rest.length ≤ n := by
        simp only [List.length_cons] at hn
        omega
      simp only [placeFoodLoop] at h
      split at h
      · exact ih rest e hlen h
      · split at h
        · exact ih rest e hlen h
        · exact Except.noConfusion h

theorem placeFood_error (N : Int) (rs : List Sample) (s : State) (e : Fault)
    (h : placeFood N rs s = Except.error e) : e = Fault.noSamples := by
  unfold placeFood at h
  rcases hl : placeFoodLoop N s.snake s.walls rs with e2 | ⟨food, rest⟩
  · rw [hl] at h
    simp only [Except.error.injEq] at h
    exact h ▸ placeFoodLoop_error N _ _ _ rs e2 (le_refl _) hl
  · rw [hl] at h
    exact Except.noConfusion h

theorem placeFood_frame (N : Int) (rs rest : List Sample) (s t : State)
    (h : placeFood N rs s = Except.ok (t, rest)) :
    t.snake = s.snake ∧ t.walls = s.walls ∧ t.score = s.score ∧
      t.isGameRunning = s.isGameRunning ∧ t.velocity = s.velocity ∧
      t.nextVelocity = s.nextVelocity ∧ t.particles = s.particles ∧
      t.highScore = s.highScore ∧ t.stored = s.stored := by
  unfold placeFood at h
  rcases hl : placeFoodLoop N s.snake s.walls rs with e2 | ⟨food, rest2⟩
  · rw [hl] at h
    exact Except.noConfusion h
  · rw [hl] at h
    simp only [Except.ok.injEq, Prod.mk.injEq] at h
    rw [← h.1]
    exact ⟨rfl, rfl, rfl, rfl, rfl, rfl, rfl, rfl, rfl⟩

/-! ## What the rejection loops return -/

theorem randomCoord_range (N : Int) (r : Sample) (hN : 1 ≤ N) :
    0 ≤ randomCoord N r ∧ randomCoord N r < N := by
  have hNq : (0 : Rat) < (N : Rat) := by exact_mod_cast (by omega : (0 : Int) < N)
  constructor
  · unfold randomCoord
    rw [Rat.le_floor]
    simpa using mul_nonneg r.2.1 hNq.le
  · show ⌊r.val * (N : Rat)⌋ < N
    rw [Int.floor_lt]
    exact mul_lt_of_lt_one_left hNq r.2.2

theorem placeFoodLoop_ok (N : Int) (snake walls : List Point) :
    ∀ (n : Nat) (rs : List Sample) (food : Point) (rest : List Sample), rs.length ≤ n →
      placeFoodLoop N snake walls rs = Except.ok (food, rest) →
      food ∉ snake ∧ food ∉ walls ∧
        ∃ rx ry, food = ⟨randomCoord N rx, randomCoord N ry⟩ := by
  intro n
  induction n with
  | zero =>
    intro rs food rest hn h
    have : rs = [] := List.length_eq_zero.1 (Nat.le_zero.1 hn)
    subst this
    simp only [placeFoodLoop] at h
    exact Except.noConfusion h
  | succ n ih =>
    intro rs food rest hn h
    match rs, hn, h with
    | [], _, h =>
      simp only [placeFoodLoop] at h
      exact Except.noConfusion h
    | [_], _, h =>
      simp only [placeFoodLoop] at h
      exact Except.noConfusion h
    | rx :: ry :: more, hn, h =>
      have hlen : more.length ≤ n := by
        simp only [List.length_cons] at hn
        omega
      simp only [placeFoodLoop] at h
      split at h
      · exact ih more food rest hlen h
      · rename_i h1
        split at h
        · exact ih more food rest hlen h
        · rename_i h2
          simp only [Except.ok.injEq, Prod.mk.injEq] at h
          rw [← h.1]
          rw [hits_iff] at h1 h2
          exact ⟨h1, h2, rx, ry, rfl⟩

theorem placeFoodLoop_returns (N : Int) (snake walls : List Point) (rx ry : Sample)
    (post : List Sample)
    (hs : (⟨randomCoord N rx, randomCoord N ry⟩ : Point) ∉ snake)
    (hw : (⟨randomCoord N rx, randomCoord N ry⟩ : Point) ∉ walls) :
    ∀ (k : Nat) (pre : List Sample), pre.length = 2 * k →
      ∃ food rest, placeFoodLoop N snake walls (pre ++ rx :: ry :: post) =
        Except.ok (food, rest) := by
  intro k
  induction k with
  | zero =>
    intro pre hp
    have : pre = [] := List.length_eq_zero.1 (by omega)
    subst this
    refine ⟨⟨randomCoord N rx, randomCoord N ry⟩, post, ?_⟩
    rw [← hits_eq_false_iff] at hs hw
    simp [placeFoodLoop, hs, hw]
  | succ k ih =>
    intro pre hp
    match pre, hp with
    | [], hp => simp at hp
    | [_], hp =>
      simp only [List.length_cons, List.length_nil] at hp
      omega
    | a :: b :: more, hp =>
      have hlen : more.length = 2 * k := by
        simp only [List.length_cons] at hp
        omega
      obtain ⟨food, rest, hr⟩ := ih more hlen
      simp only [List.cons_append, placeFoodLoop]
      split
      · exact ⟨food, rest, hr⟩
      · split
        · exact ⟨food, rest, hr⟩
        · exact ⟨_, _, rfl⟩

theorem createParticlesLoop_returns (x y : Int) (color : String) (tail : List Sample) :
    ∀ (count : Nat) (acc : List Particle) (pre : List Sample), pre.length = 3 * count →
      ∃ ps, createParticlesLoop x y color count acc (pre ++ tail) = Except.ok (ps, tail) := by
  intro count
  induction count with
  | zero =>
    intro acc pre hp
    have : pre = [] := List.length_eq_zero.1 (by omega)
    subst this
    exact ⟨acc, rfl⟩
  | succ n ih =>
    intro acc pre hp
    match pre, hp with
    | [], hp => simp at hp
    | [_], hp =>
      simp only [List.length_cons, List.length_nil] at hp
      omega
    | [_, _], hp =>
      simp only [List.length_cons, List.length_nil] at hp
      omega
    | r1 :: r2 :: r3 :: more, hp =>
      have hlen : more.length = 3 * n := by
        simp only [List.length_cons] at hp
        omega
      obtain ⟨ps, hr⟩ := ih (acc ++ [newParticle x y color r1 r2 r3]) more hlen
      exact ⟨ps, by simpa only [List.cons_append, createParticlesLoop] using hr⟩

theorem sampleWall_ok (N : Int) (snake : List Point) :
    ∀ (n : Nat) (rs : List Sample) (wall : Point) (rest : List Sample), rs.length ≤ n →
      sampleWall N snake rs = Except.ok (wall, rest) →
      wall ∉ snake ∧ ∀ h tl, snake = h :: tl → 3 ≤ manhattan wall h := by
  intro n
  induction n with
  | zero =>
    intro rs wall rest hn h
    have : rs = [] := List.length_eq_zero.1 (Nat.le_zero.1 hn)
    subst this
    simp only [sampleWall] at h
    exact Except.noConfusion h
  | succ n ih =>
    intro rs wall rest hn h
    match rs, hn, h with
    | [], _, h =>
      simp only [sampleWall] at h
      exact Except.noConfusion h
    | [_], _, h =>
      simp only [sampleWall] at h
      exact Except.noConfusion h
    | rx :: ry :: more, hn, h =>
      have hlen : more.length ≤ n := by
        simp only [List.length_cons] at hn
        omega
      simp only [sampleWall] at h
      split at h
      · exact ih more wall rest hlen h
      · rename_i h1
        rw [hits_iff] at h1
        cases snake with
        | nil => exact Except.noConfusion h
        | cons hd tl =>
          dsimp only at h
          split at h
          · exact ih more wall rest hlen h
          · rename_i h2
            simp only [Except.ok.injEq, Prod.mk.injEq] at h
            rw [← h.1]
            refine ⟨h1, ?_⟩
            intro h0 tl0 e
            simp only [List.cons.injEq] at e
            rw [← e.1]
            omega

theorem generateWallsLoop_ok (N : Int) (snake : List Point) :
    ∀ (count : Nat) (acc : List Point) (rs : List Sample) (walls : List Point)
      (rest : List Sample),
      generateWallsLoop N snake count acc rs = Except.ok (walls, rest) →
      ∃ fresh, walls = acc ++ fresh ∧ fresh.length = count ∧
        ∀ w ∈ fresh, w ∉ snake ∧ ∀ h tl, snake = h :: tl → 3 ≤ manhattan w h := by
  intro count
  induction count with
  | zero =>
    intro acc rs walls rest h
    simp only [generateWallsLoop, Except.ok.injEq, Prod.mk.injEq] at h
    exact ⟨[], by simp [h.1], rfl, by simp⟩
  | succ n ih =>
    intro acc rs walls rest h
    simp only [generateWallsLoop] at h
    rcases hw : sampleWall N snake rs with e | ⟨wall, more⟩
    · rw [hw] at h
      exact Except.noConfusion h
    · rw [hw] at h
      dsimp only at h
      obtain ⟨fresh, h1, h2, h3⟩ := ih _ _ _ _ h
      refine ⟨wall :: fresh, by simp [h1], by simp [h2], ?_⟩
      intro w hmem
      rcases List.mem_cons.1 hmem with rfl | hmem
      · exact sampleWall_ok N snake _ rs w more (le_refl _) hw
      · exact h3 w hmem

theorem generateWalls_ok (N : Int) (rs rest : List Sample) (s t : State)
    (h : generateWalls N rs s = Except.ok (t, rest)) :
    t = { s with walls := t.walls } ∧ t.walls.length = wallCount ∧
      ∀ w ∈ t.walls, w ∉ s.snake ∧ ∀ hd tl, s.snake = hd :: tl → 3 ≤ manhattan w hd := by
  unfold generateWalls at h
  rcases hl : generateWallsLoop N s.snake wallCount [] rs with e | ⟨walls, more⟩
  · rw [hl] at h
    exact Except.noConfusion h
  · rw [hl] at h
    simp only [Except.ok.injEq, Prod.mk.injEq] at h
    obtain ⟨fresh, h1, h2, h3⟩ := generateWallsLoop_ok N s.snake _ _ _ _ _ hl
    rw [List.nil_append] at h1
    subst h1
    rw [← h.1]
    exact ⟨rfl, h2, h3⟩

theorem placeFood_ok (N : Int) (rs rest : List Sample) (s t : State)
    (h : placeFood N rs s = Except.ok (t, rest)) :
    t = { s with food := t.food } ∧ t.food ∉ s.snake ∧ t.food ∉ s.walls ∧
      ∃ rx ry, t.food = ⟨randomCoord N rx, randomCoord N ry⟩ := by
  unfold placeFood at h
  rcases hl : placeFoodLoop N s.snake s.walls rs with e | ⟨food, more⟩
  · rw [hl] at h
    exact Except.noConfusion h
  · rw [hl] at h
    simp only [Except.ok.injEq, Prod.mk.injEq] at h
    obtain ⟨h1, h2, h3⟩ := placeFoodLoop_ok N s.snake s.walls _ rs food more (le_refl _) hl
    rw [← h.1]
    exact ⟨rfl, h1, h2, h3⟩

/-! ## Frame facts for `gameOver` and `draw` -/

theorem gameOver_isGameRunning (s : State) : (gameOver s).isGameRunning = false := by
  unfold gameOver
  dsimp only
  split <;> rfl

theorem gameOver_frame (s : State) :
    (gameOver s).snake = s.snake ∧ (gameOver s).walls = s.walls ∧
      (gameOver s).food = s.food ∧ (gameOver s).score = s.score ∧
      (gameOver s).velocity = s.velocity ∧ (gameOver s).nextVelocity = s.nextVelocity ∧
      (gameOver s).particles = s.particles := by
  unfold gameOver
  dsimp only
  split <;> exact ⟨rfl, rfl, rfl, rfl, rfl, rfl, rfl⟩

/-! ## The three branches of `update` -/

theorem update_collision (N : Int) (rs : List Sample) (s : State) (h : Point) (tl : List Point)
    (hs : s.snake = h :: tl)
    (hc : nextHead N h s.nextVelocity ∈ s.walls ∨ nextHead N h s.nextVelocity ∈ s.snake) :
    update N rs s = Except.ok (gameOver (commit s), rs) := by
  unfold update commit
  simp only [hs]
  rw [hs] at hc
  by_cases hw : hits (nextHead N h s.nextVelocity) s.walls = true
  · rw [if_pos hw]
  · rw [if_neg hw]
    have hsn : hits (nextHead N h s.nextVelocity) (h :: tl) = true := by
      rcases hc with hc | hc
      · exact absurd ((hits_iff _ _).2 hc) hw
      · exact (hits_iff _ _).2 hc
    rw [if_pos hsn]

theorem update_plain (N : Int) (rs : List Sample) (s : State) (h : Point) (tl : List Point)
    (hs : s.snake = h :: tl)
    (hw : nextHead N h s.nextVelocity ∉ s.walls) (hsn : nextHead N h s.nextVelocity ∉ s.snake)
    (hf : nextHead N h s.nextVelocity ≠ s.food) :
    update N rs s = Except.ok
      (draw { commit s with snake := nextHead N h s.nextVelocity :: s.snake.dropLast }, rs) := by
  unfold update commit
  simp only [hs]
  rw [hs] at hsn
  have h1 : ¬ hits (nextHead N h s.nextVelocity) s.walls = true := by
    rw [hits_iff]; exact hw
  have h2 : ¬ hits (nextHead N h s.nextVelocity) (h :: tl) = true := by
    rw [hits_iff]; exact hsn
  have h3 : ¬ ((nextHead N h s.nextVelocity).x = s.food.x ∧
      (nextHead N h s.nextVelocity).y = s.food.y) := by
    intro hxy
    apply hf
    cases hp : nextHead N h s.nextVelocity
    cases hq : s.food
    rw [hp, hq] at hxy
    simp only [Point.mk.injEq]
    exact hxy
  rw [if_neg h1, if_neg h2, if_neg h3]
  rfl

theorem update_eat (N : Int) (rs : List Sample) (s : State) (h : Point) (tl : List Point)
    (hs : s.snake = h :: tl)
    (hw : nextHead N h s.nextVelocity ∉ s.walls) (hsn : nextHead N h s.nextVelocity ∉ s.snake)
    (hf : nextHead N h s.nextVelocity = s.food) :
    update N rs s =
      match createParticles s.food.x s.food.y "#ff0055" rs (grown s) with
      | Except.error e => Except.error e
      | Except.ok (s4, rs1) =>
        match placeFood N rs1 s4 with
        | Except.error e => Except.error e
        | Except.ok (s5, rs2) => Except.ok (draw s5, rs2) := by
  unfold update grown commit
  simp only [hs]
  rw [hs] at hsn
  have h1 : ¬ hits (nextHead N h s.nextVelocity) s.walls = true := by
    rw [hits_iff]; exact hw
  have h2 : ¬ hits (nextHead N h s.nextVelocity) (h :: tl) = true := by
    rw [hits_iff]; exact hsn
  rw [if_neg h1, if_neg h2, hf, if_pos ⟨rfl, rfl⟩]

theorem update_eat_outcome (N : Int) (rs : List Sample) (s : State) (h : Point)
    (tl : List Point) (hs : s.snake = h :: tl)
    (hw : nextHead N h s.nextVelocity ∉ s.walls) (hsn : nextHead N h s.nextVelocity ∉ s.snake)
    (hf : nextHead N h s.nextVelocity = s.food) :
    update N rs s = Except.error Fault.noSamples ∨
      ∃ s4 rs1 s5 rs2,
        createParticles s.food.x s.food.y "#ff0055" rs (grown s) = Except.ok (s4, rs1) ∧
        placeFood N rs1 s4 = Except.ok (s5, rs2) ∧
        update N rs s = Except.ok (draw s5, rs2) := by
  have hu := update_eat N rs s h tl hs hw hsn hf
  rcases hcp : createParticles s.food.x s.food.y "#ff0055" rs (grown s) with e | ⟨s4, rs1⟩
  · rw [hcp] at hu
    dsimp only at hu
    left
    rw [hu, createParticles_error _ _ _ _ _ _ hcp]
  · rw [hcp] at hu
    dsimp only at hu
    rcases hpf : placeFood N rs1 s4 with e | ⟨s5, rs2⟩
    · rw [hpf] at hu
      dsimp only at hu
      left
      rw [hu, placeFood_error _ _ _ _ hpf]
    · rw [hpf] at hu
      dsimp only at hu
      right
      exact ⟨s4, rs1, s5, rs2, rfl, hpf, hu⟩

theorem update_head (N : Int) (rs rest : List Sample) (s t : State) (h : Point)
    (tl : List Point) (hs : s.snake = h :: tl)
    (hw : nextHead N h s.nextVelocity ∉ s.walls) (hsn : nextHead N h s.nextVelocity ∉ s.snake)
    (hu : update N rs s = Except.ok (t, rest)) :
    t.snake.head? = some (nextHead N h s.nextVelocity) := by
  by_cases hf : nextHead N h s.nextVelocity = s.food
  · rcases update_eat_outcome N rs s h tl hs hw hsn hf with
      he | ⟨s4, rs1, s5, rs2, h4, h5, hu2⟩
    · rw [he] at hu
      exact Except.noConfusion hu
    · rw [hu2] at hu
      simp only [Except.ok.injEq, Prod.mk.injEq] at hu
      rw [← hu.1]
      show s5.snake.head? = _
      rw [(placeFood_frame _ _ _ _ _ h5).1, (createParticles_frame _ _ _ _ _ _ _ h4).1, hf]
      rfl
  · rw [update_plain N rs s h tl hs hw hsn hf] at hu
    simp only [Except.ok.injEq, Prod.mk.injEq] at hu
    rw [← hu.1]
    rfl

/-! ## Frame facts for the handlers -/

theorem draw_frame (s : State) :
    (draw s).snake = s.snake ∧ (draw s).walls = s.walls ∧ (draw s).food = s.food ∧
      (draw s).score = s.score ∧ (draw s).isGameRunning = s.isGameRunning :=
  ⟨rfl, rfl, rfl, rfl, rfl⟩

theorem handleInput_frame (k : String) (s : State) :
    (handleInput k s).snake = s.snake ∧ (handleInput k s).walls = s.walls ∧
      (handleInput k s).food = s.food := by
  unfold handleInput
  split_ifs <;> exact ⟨rfl, rfl, rfl⟩

theorem handleSwipe_frame (sx sy ex ey : Rat) (s : State) :
    (handleSwipe sx sy ex ey s).snake = s.snake ∧ (handleSwipe sx sy ex ey s).walls = s.walls ∧
      (handleSwipe sx sy ex ey s).food = s.food := by
  unfold handleSwipe
  dsimp only
  split_ifs <;> exact ⟨rfl, rfl, rfl⟩

/-! ## Food stays off the snake and the walls -/

theorem resetGame_food (N : Int) (rs rest : List Sample) (s t : State)
    (h : resetGame N rs s = Except.ok (t, rest)) : t.food ∉ t.snake ∧ t.food ∉ t.walls := by
  unfold resetGame at h
  dsimp only at h
  split at h
  · exact Except.noConfusion h
  · rename_i s2 more hg
    obtain ⟨h1, h2, h3, _⟩ := placeFood_ok N more rest s2 t h
    rw [h1]
    exact ⟨h2, h3⟩

theorem update_food (N : Int) (rs rest : List Sample) (s t : State)
    (hinv : s.food ∉ s.snake ∧ s.food ∉ s.walls)
    (h : update N rs s = Except.ok (t, rest)) : t.food ∉ t.snake ∧ t.food ∉ t.walls := by
  cases hs : s.snake with
  | nil =>
    unfold update at h
    simp only [hs] at h
    exact Except.noConfusion h
  | cons hd tl =>
    by_cases hc : nextHead N hd s.nextVelocity ∈ s.walls ∨ nextHead N hd s.nextVelocity ∈ s.snake
    · rw [update_collision N rs s hd tl hs hc] at h
      simp only [Except.ok.injEq, Prod.mk.injEq] at h
      have hg := gameOver_frame (commit s)
      rw [← h.1, hg.1, hg.2.1, hg.2.2.1]
      exact hinv
    · rw [not_or] at hc
      by_cases hf : nextHead N hd s.nextVelocity = s.food
      · rcases update_eat_outcome N rs s hd tl hs hc.1 hc.2 hf with
          hu | ⟨s4, rs1, s5, rs2, _, h5, hu⟩
        · rw [hu] at h
          exact Except.noConfusion h
        · rw [hu] at h
          simp only [Except.ok.injEq, Prod.mk.injEq] at h
          obtain ⟨h1, h2, h3, _⟩ := placeFood_ok N rs1 rs2 s4 s5 h5
          rw [← h.1]
          show s5.food ∉ s5.snake ∧ s5.food ∉ s5.walls
          rw [h1]
          exact ⟨h2, h3⟩
      · rw [update_plain N rs s hd tl hs hc.1 hc.2 hf] at h
        simp only [Except.ok.injEq, Prod.mk.injEq] at h
        rw [← h.1]
        refine ⟨?_, hinv.2⟩
        show s.food ∉ nextHead N hd s.nextVelocity :: s.snake.dropLast
        intro hmem
        rcases List.mem_cons.1 hmem with e | hmem
        · exact hf e.symm
        · exact hinv.1 (List.mem_of_mem_dropLast hmem)

theorem startGame_food (N : Int) (rs rest : List Sample) (s t : State)
    (hinv : s.food ∉ s.snake ∧ s.food ∉ s.walls)
    (h : startGame N rs s = Except.ok (t, rest)) : t.food ∉ t.snake ∧ t.food ∉ t.walls := by
  unfold startGame at h
  split at h
  · simp only [Except.ok.injEq, Prod.mk.injEq] at h
    rw [← h.1]
    exact hinv
  · split at h
    · exact Except.noConfusion h
    · rename_i s1 more hr
      simp only [Except.ok.injEq, Prod.mk.injEq] at h
      rw [← h.1]
      exact resetGame_food N rs more s s1 hr

/-! ## The grid -/

/-- C6. For every integer `c` and every tile count `N ≥ 1` the wrap that `update` applies to
a coordinate returns a value `w` with `0 ≤ w < N`, and wrapping `w` again returns `w`. -/
theorem wrap_range_idempotent (N c : Int) (hN : 1 ≤ N) :
    0 ≤ wrap N c ∧ wrap N c < N ∧ wrap N (wrap N c) = wrap N c := by
  have hr : 0 ≤ wrap N c ∧ wrap N c < N := by
    rcases lt_or_le c 0 with h | h
    · rw [wrap_of_neg N c h]; omega
    · rcases lt_or_le c N with h2 | h2
      · rw [wrap_of_mem N c h h2]; omega
      · rw [wrap_of_ge N c hN h2]; omega
  exact ⟨hr.1, hr.2, wrap_of_mem N _ hr.1 hr.2⟩

/-- Instance of C6 on the 20-tile grid at the coordinate `-1`. -/
theorem wrap_range_idempotent_witness :
    (1 : Int) ≤ 20 ∧ wrap 20 (-1) = 19 ∧
      (0 ≤ wrap 20 (-1) ∧ wrap 20 (-1) < 20 ∧ wrap 20 (wrap 20 (-1)) = wrap 20 (-1)) :=
  ⟨by decide, by decide, wrap_range_idempotent 20 (-1) (by decide)⟩

/-- C5. For every tile count `N ≥ 1`, every head cell inside the grid and every one of the
four unit velocities, the new head that `update` computes is
`((x + vx) mod N, (y + vy) mod N)`, and it is the first cell of the snake of every state
that `update` returns without a collision; a head in the last column moving right lands in
column `0` of the same row, a head in column `0` moving left lands in the last column of
the same row, and likewise for rows. -/
theorem nextHead_toroidal (N : Int) (h v : Point) (hN : 1 ≤ N)
    (hx : 0 ≤ h.x ∧ h.x < N) (hy : 0 ≤ h.y ∧ h.y < N)
    (hv : v = ⟨0, -1⟩ ∨ v = ⟨0, 1⟩ ∨ v = ⟨-1, 0⟩ ∨ v = ⟨1, 0⟩) :
    nextHead N h v = ⟨(h.x + v.x) % N, (h.y + v.y) % N⟩ ∧
      (∀ (rs rest : List Sample) (s t : State) (tl : List Point),
        s.snake = h :: tl → s.nextVelocity = v →
        nextHead N h v ∉ s.walls → nextHead N h v ∉ s.snake →
        update N rs s = Except.ok (t, rest) →
        t.snake.head? = some ⟨(h.x + v.x) % N, (h.y + v.y) % N⟩) ∧
      (h.x = N - 1 → nextHead N h ⟨1, 0⟩ = ⟨0, h.y⟩) ∧
      (h.x = 0 → nextHead N h ⟨-1, 0⟩ = ⟨N - 1, h.y⟩) ∧
      (h.y = N - 1 → nextHead N h ⟨0, 1⟩ = ⟨h.x, 0⟩) ∧
      (h.y = 0 → nextHead N h ⟨0, -1⟩ = ⟨h.x, N - 1⟩) := by
  have hmod : nextHead N h v = ⟨(h.x + v.x) % N, (h.y + v.y) % N⟩ := by
    unfold nextHead
    have h1 : v.x = -1 ∨ v.x = 0 ∨ v.x = 1 := by
      rcases hv with rfl | rfl | rfl | rfl <;> simp
    have h2 : v.y = -1 ∨ v.y = 0 ∨ v.y = 1 := by
      rcases hv with rfl | rfl | rfl | rfl <;> simp
    rw [wrap_step_eq_emod N h.x v.x hN hx.1 hx.2 h1, wrap_step_eq_emod N h.y v.y hN hy.1 hy.2 h2]
  refine ⟨hmod, ?_, ?_, ?_, ?_, ?_⟩
  · intro rs rest s t tl hs hnv hw hsn hu
    subst hnv
    rw [update_head N rs rest s t h tl hs hw hsn hu, hmod]
  · intro e
    unfold nextHead
    simp only [add_zero]
    rw [wrap_of_ge N _ hN (by omega), wrap_of_mem N _ hy.1 hy.2]
  · intro e
    unfold nextHead
    simp only [add_zero]
    rw [wrap_of_neg N _ (by omega), wrap_of_mem N _ hy.1 hy.2]
  · intro e
    unfold nextHead
    simp only [add_zero]
    rw [wrap_of_mem N _ hx.1 hx.2, wrap_of_ge N _ hN (by omega)]
  · intro e
    unfold nextHead
    simp only [add_zero]
    rw [wrap_of_mem N _ hx.1 hx.2, wrap_of_neg N _ (by omega)]

/-- Instance of C5: on the 20-tile grid a head at `(19, 7)` moving right lands on `(0, 7)`. -/
theorem nextHead_toroidal_witness :
    nextHead 20 ⟨19, 7⟩ ⟨1, 0⟩ = ⟨(19 + 1) % 20, (7 + 0) % 20⟩ ∧
      nextHead 20 ⟨19, 7⟩ ⟨1, 0⟩ = ⟨0, 7⟩ :=
  ⟨(nextHead_toroidal 20 ⟨19, 7⟩ ⟨1, 0⟩ (by decide) (by decide) (by decide)
      (Or.inr (Or.inr (Or.inr rfl)))).1,
    (nextHead_toroidal 20 ⟨19, 7⟩ ⟨1, 0⟩ (by decide) (by decide) (by decide)
      (Or.inr (Or.inr (Or.inr rfl)))).2.2.1 rfl⟩

/-! ## One tick -/

/-- C1. In a running state with a non-empty snake whose new head (head plus the velocity
that this tick commits, wrapped) lies on no wall, on no snake cell and not on the food,
`update` returns, the snake becomes the new head followed by the old snake without its last
cell, its length is unchanged, score, food and walls are unchanged and the game is still
running. -/
theorem update_plain_move (N : Int) (rs : List Sample) (s : State) (h : Point) (tl : List Point)
    (hrun : s.isGameRunning = true) (hs : s.snake = h :: tl)
    (hw : nextHead N h s.nextVelocity ∉ s.walls) (hsn : nextHead N h s.nextVelocity ∉ s.snake)
    (hf : nextHead N h s.nextVelocity ≠ s.food) :
    ∃ t, update N rs s = Except.ok (t, rs) ∧
      t.snake = nextHead N h s.nextVelocity :: s.snake.dropLast ∧
      t.snake.length = s.snake.length ∧
      t.score = s.score ∧ t.food = s.food ∧ t.walls = s.walls ∧ t.isGameRunning = true := by
  refine ⟨_, update_plain N rs s h tl hs hw hsn hf, rfl, ?_, rfl, rfl, rfl, hrun⟩
  show (nextHead N h s.nextVelocity :: s.snake.dropLast).length = s.snake.length
  rw [hs]
  simp

/-- Instance of C1 with `N = 20`: the snake `[(10,15),(10,16),(10,17)]` moving up becomes
`[(10,14),(10,15),(10,16)]` and the score stays at its value. -/
theorem update_plain_move_witness :
    ∃ t, update 20 [] plainExample = Except.ok (t, []) ∧
      t.snake = [⟨10, 14⟩, ⟨10, 15⟩, ⟨10, 16⟩] ∧ t.snake.length = 3 ∧
      t.score = 30 ∧ t.food = ⟨3, 4⟩ ∧ t.walls = [⟨0, 0⟩] ∧ t.isGameRunning = true :=
  update_plain_move 20 [] plainExample ⟨10, 15⟩ [⟨10, 16⟩, ⟨10, 17⟩] rfl rfl
    (by decide) (by decide) (by decide)

/-- C3. In a running state with a non-empty snake, `update` ends the game exactly when the
new head lies on a wall or on a cell of the current snake, the last cell included: on such a
collision it returns a state that is not running; without a collision every state it returns
is running, and it returns one unless the food was eaten and the samples ran out. -/
theorem update_gameOver_iff_collision (N : Int) (rs : List Sample) (s : State) (h : Point)
    (tl : List Point) (hrun : s.isGameRunning = true) (hs : s.snake = h :: tl) :
    (nextHead N h s.nextVelocity ∈ s.walls ∨ nextHead N h s.nextVelocity ∈ s.snake →
        ∃ t, update N rs s = Except.ok (t, rs) ∧ t.isGameRunning = false) ∧
      (¬ (nextHead N h s.nextVelocity ∈ s.walls ∨ nextHead N h s.nextVelocity ∈ s.snake) →
        (∃ t rest, update N rs s = Except.ok (t, rest) ∧ t.isGameRunning = true) ∨
          (nextHead N h s.nextVelocity = s.food ∧
            update N rs s = Except.error Fault.noSamples)) ∧
      (∀ t rest, update N rs s = Except.ok (t, rest) →
        (t.isGameRunning = false ↔
          (nextHead N h s.nextVelocity ∈ s.walls ∨ nextHead N h s.nextVelocity ∈ s.snake))) := by
  have hA : nextHead N h s.nextVelocity ∈ s.walls ∨ nextHead N h s.nextVelocity ∈ s.snake →
      ∃ t, update N rs s = Except.ok (t, rs) ∧ t.isGameRunning = false := fun hc =>
    ⟨_, update_collision N rs s h tl hs hc, gameOver_isGameRunning _⟩
  have hB : ¬ (nextHead N h s.nextVelocity ∈ s.walls ∨ nextHead N h s.nextVelocity ∈ s.snake) →
      (∃ t rest, update N rs s = Except.ok (t, rest) ∧ t.isGameRunning = true) ∨
        (nextHead N h s.nextVelocity = s.food ∧
          update N rs s = Except.error Fault.noSamples) := by
    intro hc
    rw [not_or] at hc
    by_cases hf : nextHead N h s.nextVelocity = s.food
    · rcases update_eat_outcome N rs s h tl hs hc.1 hc.2 hf with hu | ⟨s4, rs1, s5, rs2, h4, h5, hu⟩
      · exact Or.inr ⟨hf, hu⟩
      · left
        refine ⟨draw s5, rs2, hu, ?_⟩
        show s5.isGameRunning = true
        rw [(placeFood_frame _ _ _ _ _ h5).2.2.2.1, (createParticles_frame _ _ _ _ _ _ _ h4).2.2.2.2.1]
        exact hrun
    · left
      exact ⟨_, rs, update_plain N rs s h tl hs hc.1 hc.2 hf, hrun⟩
  refine ⟨hA, hB, ?_⟩
  intro t rest hu
  constructor
  · intro hfalse
    by_contra hc
    rcases hB hc with ⟨t2, rest2, h2, hr2⟩ | ⟨_, h2⟩
    · rw [hu] at h2
      simp only [Except.ok.injEq, Prod.mk.injEq] at h2
      rw [h2.1, hr2] at hfalse
      exact Bool.noConfusion hfalse
    · rw [hu] at h2
      exact Except.noConfusion h2
  · intro hc
    obtain ⟨t2, h2, hr2⟩ := hA hc
    rw [hu] at h2
    simp only [Except.ok.injEq, Prod.mk.injEq] at h2
    rw [h2.1]
    exact hr2

/-- Instance of C3 with `N = 20`: a head stepping onto the last snake cell ends the game. -/
theorem update_gameOver_iff_collision_witness :
    nextHead 20 ⟨1, 1⟩ tailBiteExample.nextVelocity = ⟨2, 1⟩ ∧
      ∃ t, update 20 [] tailBiteExample = Except.ok (t, []) ∧ t.isGameRunning = false :=
  ⟨by decide,
    (update_gameOver_iff_collision 20 [] tailBiteExample ⟨1, 1⟩ [⟨1, 2⟩, ⟨2, 2⟩, ⟨2, 1⟩]
      rfl rfl).1 (Or.inr (by decide))⟩

/-- C4. In a running state in which the new head lies on a wall or on a snake cell, `update`
returns a state whose snake, wall list, food cell and score are those before the tick. -/
theorem update_death_freezes (N : Int) (rs : List Sample) (s : State) (h : Point)
    (tl : List Point) (_hrun : s.isGameRunning = true) (hs : s.snake = h :: tl)
    (hc : nextHead N h s.nextVelocity ∈ s.walls ∨ nextHead N h s.nextVelocity ∈ s.snake) :
    ∃ t, update N rs s = Except.ok (t, rs) ∧ t.isGameRunning = false ∧
      t.snake = s.snake ∧ t.walls = s.walls ∧ t.food = s.food ∧ t.score = s.score := by
  have hg := gameOver_frame (commit s)
  exact ⟨_, update_collision N rs s h tl hs hc, gameOver_isGameRunning _,
    hg.1, hg.2.1, hg.2.2.1, hg.2.2.2.1⟩

/-- Instance of C4 with `N = 20`: stepping onto the wall `(10,14)` leaves the board as it
was. -/
theorem update_death_freezes_witness :
    ∃ t, update 20 [] wallHitExample = Except.ok (t, []) ∧ t.isGameRunning = false ∧
      t.snake = [⟨10, 15⟩, ⟨10, 16⟩, ⟨10, 17⟩] ∧ t.walls = [⟨0, 0⟩, ⟨10, 14⟩] ∧
      t.food = ⟨5, 5⟩ ∧ t.score = 20 :=
  update_death_freezes 20 [] wallHitExample ⟨10, 15⟩ [⟨10, 16⟩, ⟨10, 17⟩] rfl rfl
    (Or.inl (by decide))

/-- C2, counterexample. On the 2-tile grid `fullBoardExample` is a running state whose new
head is the food cell and lies on no wall and on no snake cell, yet on every sequence of
samples `update` returns no state: once the head is pushed the snake and the walls cover the
grid, so the loop of `placeFood` rejects every sample. -/
theorem update_eat_full_board_never_returns :
    fullBoardExample.isGameRunning = true ∧
      nextHead 2 ⟨0, 0⟩ fullBoardExample.nextVelocity = fullBoardExample.food ∧
      nextHead 2 ⟨0, 0⟩ fullBoardExample.nextVelocity ∉ fullBoardExample.walls ∧
      nextHead 2 ⟨0, 0⟩ fullBoardExample.nextVelocity ∉ fullBoardExample.snake ∧
      ∀ rs : List Sample, update 2 rs fullBoardExample = Except.error Fault.noSamples := by
  refine ⟨rfl, by decide, by decide, by decide, ?_⟩
  intro rs
  rcases update_eat_outcome 2 rs fullBoardExample ⟨0, 0⟩ [] rfl (by decide) (by decide)
      (by decide) with hu | ⟨s4, rs1, s5, rs2, h4, h5, _⟩
  · exact hu
  · exfalso
    have hf := createParticles_frame _ _ _ _ _ _ _ h4
    obtain ⟨_, h2, h3, rx, ry, hxy⟩ := placeFood_ok 2 rs1 rs2 s4 s5 h5
    rw [hf.1] at h2
    rw [hf.2.1] at h3
    have hx := randomCoord_range 2 rx (by decide)
    have hy := randomCoord_range 2 ry (by decide)
    rw [hxy] at h2 h3
    generalize randomCoord 2 rx = a at hx h2 h3
    generalize randomCoord 2 ry = b at hy h2 h3
    have ha : a = 0 ∨ a = 1 := by omega
    have hb : b = 0 ∨ b = 1 := by omega
    rcases ha with rfl | rfl <;> rcases hb with rfl | rfl
    · exact h2 (by decide)
    · exact h3 (by decide)
    · exact h2 (by decide)
    · exact h3 (by decide)

/-- On the 20-tile grid every cell is the food, a snake cell or a wall of
`crowdedExample`. -/
theorem crowded_cover :
    ∀ a ∈ List.range 20, ∀ b ∈ List.range 20,
      (hits ⟨(a : Int), (b : Int)⟩ (crowdedExample.food :: crowdedExample.snake) ||
        hits ⟨(a : Int), (b : Int)⟩ crowdedExample.walls) = true := by
  decide!

/-- The same failure on the 20-tile grid with fifteen walls: in `crowdedExample` the new head
is the food cell and lies on no wall and on no snake cell, and on every sequence of samples
`update` returns no state, because the grown snake and the walls cover all 400 cells. -/
theorem update_eat_crowded_board_never_returns :
    crowdedExample.isGameRunning = true ∧
      nextHead 20 ⟨16, 0⟩ crowdedExample.nextVelocity = crowdedExample.food ∧
      nextHead 20 ⟨16, 0⟩ crowdedExample.nextVelocity ∉ crowdedExample.walls ∧
      nextHead 20 ⟨16, 0⟩ crowdedExample.nextVelocity ∉ crowdedExample.snake ∧
      ∀ rs : List Sample, update 20 rs crowdedExample = Except.error Fault.noSamples := by
  have hw : nextHead 20 ⟨16, 0⟩ crowdedExample.nextVelocity ∉ crowdedExample.walls := by
    decide!
  have hsn : nextHead 20 ⟨16, 0⟩ crowdedExample.nextVelocity ∉ crowdedExample.snake := by
    decide!
  refine ⟨rfl, by decide, hw, hsn, ?_⟩
  intro rs
  rcases update_eat_outcome 20 rs crowdedExample ⟨16, 0⟩ crowdedExample.snake.tail rfl hw hsn
      (by decide) with hu | ⟨s4, rs1, s5, rs2, h4, h5, _⟩
  · exact hu
  · exfalso
    have hf := createParticles_frame _ _ _ _ _ _ _ h4
    obtain ⟨_, h2, h3, rx, ry, hxy⟩ := placeFood_ok 20 rs1 rs2 s4 s5 h5
    rw [hf.1] at h2
    rw [hf.2.1] at h3
    have hx := randomCoord_range 20 rx (by decide)
    have hy := randomCoord_range 20 ry (by decide)
    rw [hxy] at h2 h3
    generalize randomCoord 20 rx = a at hx h2 h3
    generalize randomCoord 20 ry = b at hy h2 h3
    obtain ⟨hx0, hx1⟩ := hx
    obtain ⟨hy0, hy1⟩ := hy
    lift a to ℕ using hx0
    lift b to ℕ using hy0
    have hc := crowded_cover a (List.mem_range.2 (by omega)) b (List.mem_range.2 (by omega))
    rw [Bool.or_eq_true, hits_iff, hits_iff] at hc
    rcases hc with hc | hc
    · exact h2 hc
    · exact h3 hc

/-- C2, amended. In a running state whose new head is the food cell and lies on no wall and
on no snake cell: every state that `update` returns has the score raised by exactly 10, the
snake equal to the new head followed by the whole old snake (one cell longer), the walls
unchanged, the game running, and a food cell that differs from the old one and lies on no
cell of the new snake and on no wall; `update` does return when the samples hold thirty
values for the particles and then, after an even number of values, a pair that gives a cell
free of the new snake and the walls; and when it does not return, it is because the samples
ran out. -/
theorem update_eat_grows (N : Int) (rs : List Sample) (s : State) (h : Point) (tl : List Point)
    (hrun : s.isGameRunning = true) (hs : s.snake = h :: tl)
    (hf : nextHead N h s.nextVelocity = s.food)
    (hw : nextHead N h s.nextVelocity ∉ s.walls) (hsn : nextHead N h s.nextVelocity ∉ s.snake) :
    (∀ t rest, update N rs s = Except.ok (t, rest) →
        t.score = s.score + 10 ∧ t.snake = nextHead N h s.nextVelocity :: s.snake ∧
        t.snake.length = s.snake.length + 1 ∧ t.walls = s.walls ∧
        t.isGameRunning = true ∧ t.food ≠ s.food ∧ t.food ∉ t.snake ∧ t.food ∉ t.walls) ∧
      (∀ (ps pre post : List Sample) (rx ry : Sample) (k : Nat),
        rs = ps ++ (pre ++ rx :: ry :: post) → ps.length = 30 → pre.length = 2 * k →
        (⟨randomCoord N rx, randomCoord N ry⟩ : Point) ∉ nextHead N h s.nextVelocity :: s.snake →
        (⟨randomCoord N rx, randomCoord N ry⟩ : Point) ∉ s.walls →
        ∃ t rest, update N rs s = Except.ok (t, rest)) ∧
      (∀ e, update N rs s = Except.error e → e = Fault.noSamples) := by
  refine ⟨?_, ?_, ?_⟩
  · intro t rest hu
    rcases update_eat_outcome N rs s h tl hs hw hsn hf with
      he | ⟨s4, rs1, s5, rs2, h4, h5, hu2⟩
    · rw [he] at hu
      exact Except.noConfusion hu
    · rw [hu2] at hu
      simp only [Except.ok.injEq, Prod.mk.injEq] at hu
      have c := createParticles_frame _ _ _ _ _ _ _ h4
      have p := placeFood_frame _ _ _ _ _ h5
      obtain ⟨_, p2, p3, _⟩ := placeFood_ok N rs1 rs2 s4 s5 h5
      have hsnake : s5.snake = nextHead N h s.nextVelocity :: s.snake := by
        rw [p.1, c.1, hf]; rfl
      have hwalls : s5.walls = s.walls := by
        rw [p.2.1, c.2.1]; rfl
      have hfood : s5.food ∉ s5.snake := by
        rw [p.1]; exact p2
      rw [← hu.1]
      refine ⟨?_, hsnake, ?_, hwalls, ?_, ?_, hfood, ?_⟩
      · show s5.score = s.score + 10
        rw [p.2.2.1, c.2.2.2.1]; rfl
      · show s5.snake.length = s.snake.length + 1
        rw [hsnake]; rfl
      · show s5.isGameRunning = true
        rw [p.2.2.2.1, c.2.2.2.2.1]; exact hrun
      · show s5.food ≠ s.food
        intro e
        apply hfood
        rw [hsnake, e, hf]
        exact List.mem_cons_self _ _
      · show s5.food ∉ s5.walls
        rw [p.2.1]; exact p3
  · intro ps pre post rx ry k hrs hps hpre hfs hfw
    have hu := update_eat N rs s h tl hs hw hsn hf
    obtain ⟨parts, hl⟩ := createParticlesLoop_returns s.food.x s.food.y "#ff0055"
      (pre ++ rx :: ry :: post) 10 (grown s).particles ps (by omega)
    have hcp : createParticles s.food.x s.food.y "#ff0055" rs (grown s) =
        Except.ok ({ grown s with particles := parts }, pre ++ rx :: ry :: post) := by
      unfold createParticles
      rw [hrs, hl]
    rw [hf] at hfs
    obtain ⟨food, rest, hp⟩ := placeFoodLoop_returns N (s.food :: s.snake) s.walls rx ry post
      hfs hfw k pre hpre
    have hpf : placeFood N (pre ++ rx :: ry :: post) { grown s with particles := parts } =
        Except.ok ({ grown s with particles := parts, food := food }, rest) := by
      unfold placeFood
      show (match placeFoodLoop N (s.food :: s.snake) s.walls (pre ++ rx :: ry :: post) with
        | Except.error e => Except.error e
        | Except.ok (food, rest) =>
          Except.ok ({ grown s with particles := parts, food := food }, rest)) = _
      rw [hp]
    rw [hcp] at hu
    dsimp only at hu
    rw [hpf] at hu
    exact ⟨_, _, hu⟩
  · intro e he
    rcases update_eat_outcome N rs s h tl hs hw hsn hf with
      hu | ⟨s4, rs1, s5, rs2, _, _, hu⟩
    · rw [hu] at he
      simp only [Except.error.injEq] at he
      exact he.symm
    · rw [hu] at he
      exact Except.noConfusion he

/-- Instance of the amended C2 with `N = 20`: on `eatSamples` the snake of `eatExample`
eats the food at `(10,14)`, the score goes from 20 to 30, the snake has four cells, and the
new food is off the snake and the wall. -/
theorem update_eat_grows_witness :
    ∃ t rest, update 20 eatSamples eatExample = Except.ok (t, rest) ∧
      t.score = 20 + 10 ∧ t.snake = [⟨10, 14⟩, ⟨10, 15⟩, ⟨10, 16⟩, ⟨10, 17⟩] ∧
      t.walls = [⟨0, 0⟩] ∧ t.food ∉ t.snake ∧ t.food ∉ t.walls := by
  have key := update_eat_grows 20 eatSamples eatExample ⟨10, 15⟩ [⟨10, 16⟩, ⟨10, 17⟩]
    rfl rfl (by decide) (by decide) (by decide)
  obtain ⟨t, rest, hu⟩ := key.2.1 (List.replicate 30 half) [zero, zero] [] half half 1
    rfl rfl rfl (by decide!) (by decide!)
  obtain ⟨h1, h2, _, h4, _, _, h7, h8⟩ := key.1 t rest hu
  exact ⟨t, rest, hu, h1, h2, h4, h7, h8⟩

/-! ## Placing food and walls -/

/-- C7. For every snake, every wall list and every sequence of samples on which `placeFood`
returns, on a grid of `N ≥ 1` tiles the food cell it leaves has both coordinates in `[0,N)`
and coincides with no snake cell and with no wall cell; snake and walls are as before. -/
theorem placeFood_legal (N : Int) (rs rest : List Sample) (s t : State) (hN : 1 ≤ N)
    (h : placeFood N rs s = Except.ok (t, rest)) :
    (0 ≤ t.food.x ∧ t.food.x < N) ∧ (0 ≤ t.food.y ∧ t.food.y < N) ∧
      t.food ∉ t.snake ∧ t.food ∉ t.walls ∧ t.snake = s.snake ∧ t.walls = s.walls := by
  obtain ⟨_, h2, h3, rx, ry, hxy⟩ := placeFood_ok N rs rest s t h
  have p := placeFood_frame N rs rest s t h
  rw [p.1, p.2.1]
  refine ⟨?_, ?_, h2, h3, rfl, rfl⟩
  · rw [hxy]; exact randomCoord_range N rx hN
  · rw [hxy]; exact randomCoord_range N ry hN

/-- Instance of C7 with `N = 20`: the first attempt `(0,0)` is a wall and is rejected, the
second attempt `(10,10)` becomes the food. -/
theorem placeFood_legal_witness :
    placeFood 20 [zero, zero, half, half] plainExample =
        Except.ok ({ plainExample with food := ⟨10, 10⟩ }, []) ∧
      (⟨10, 10⟩ : Point) ∉ plainExample.snake ∧ (⟨10, 10⟩ : Point) ∉ plainExample.walls :=
  have h : placeFood 20 [zero, zero, half, half] plainExample =
      Except.ok ({ plainExample with food := ⟨10, 10⟩ }, []) := by decide!
  ⟨h, (placeFood_legal 20 _ _ _ _ (by decide) h).2.2.1,
    (placeFood_legal 20 _ _ _ _ (by decide) h).2.2.2.1⟩

/-- C9. For every non-empty snake and every sequence of samples on which `generateWalls`
returns, the wall list has exactly 15 entries and every entry coincides with no snake cell
and has Manhattan distance at least 3 from the head of the snake. -/
theorem generateWalls_safe (N : Int) (rs rest : List Sample) (s t : State) (h : Point)
    (tl : List Point) (hs : s.snake = h :: tl)
    (hg : generateWalls N rs s = Except.ok (t, rest)) :
    t.walls.length = 15 ∧ ∀ w ∈ t.walls, w ∉ s.snake ∧ 3 ≤ manhattan w h := by
  obtain ⟨_, h2, h3⟩ := generateWalls_ok N rs rest s t hg
  exact ⟨h2, fun w hw => ⟨(h3 w hw).1, (h3 w hw).2 h tl hs⟩⟩

/-- Instance of C9 with `N = 20` and the snake of `resetGame`: the attempts `(10,15)` (a
snake cell) and `(10,13)` (distance 2 from the head) are rejected, then fifteen walls at
`(0,0)` are accepted. -/
theorem generateWalls_safe_witness :
    generateWalls 20 rejectSamples resetExample =
        Except.ok ({ resetExample with walls := List.replicate 15 ⟨0, 0⟩ }, []) ∧
      (List.replicate 15 (⟨0, 0⟩ : Point)).length = 15 ∧
      ∀ w ∈ List.replicate 15 (⟨0, 0⟩ : Point),
        w ∉ resetExample.snake ∧ 3 ≤ manhattan w ⟨10, 15⟩ :=
  have h : generateWalls 20 rejectSamples resetExample =
      Except.ok ({ resetExample with walls := List.replicate 15 ⟨0, 0⟩ }, []) := by decide!
  ⟨h, generateWalls_safe 20 _ _ _ _ ⟨10, 15⟩ [⟨10, 16⟩, ⟨10, 17⟩] rfl h⟩

/-- C10, counterexample. On the 20-tile grid with the snake of `resetGame`, the samples
`repeatSamples` make `generateWalls` return fifteen walls among which the cell `(0,0)`
occurs twice: the walls are not pairwise distinct and cover 14 cells, not 15. -/
theorem generateWalls_repeats_a_wall :
    generateWalls 20 repeatSamples resetExample =
        Except.ok ({ resetExample with walls := repeatWalls }, []) ∧
      ¬ repeatWalls.Nodup ∧ repeatWalls.dedup.length = 14 :=
  ⟨by decide!, by decide, by decide⟩

/-- C10, amended. For every sequence of samples on which `generateWalls` returns, the wall
list has exactly 15 entries; no sample is compared with the walls already chosen, so the
entries need not be pairwise distinct, and the number of distinct wall cells is at least 1
and at most 15. -/
theorem generateWalls_count (N : Int) (rs rest : List Sample) (s t : State)
    (hg : generateWalls N rs s = Except.ok (t, rest)) :
    t.walls.length = 15 ∧ 1 ≤ t.walls.dedup.length ∧ t.walls.dedup.length ≤ 15 := by
  obtain ⟨_, h2, _⟩ := generateWalls_ok N rs rest s t hg
  have hle : t.walls.dedup.length ≤ t.walls.length := (List.dedup_sublist t.walls).length_le
  have hne : t.walls.dedup ≠ [] := by
    rw [Ne, List.dedup_eq_nil]
    intro e
    rw [e] at h2
    exact absurd h2 (by decide)
  have hpos : 0 < t.walls.dedup.length := List.length_pos.2 hne
  have h15 : t.walls.length = 15 := h2
  exact ⟨h15, hpos, h15 ▸ hle⟩

/-- Instance of the amended C10 with `N = 20`: the fifteen walls of `repeatSamples`. -/
theorem generateWalls_count_witness :
    repeatWalls.length = 15 ∧ 1 ≤ repeatWalls.dedup.length ∧ repeatWalls.dedup.length ≤ 15 :=
  generateWalls_count 20 repeatSamples [] resetExample
    { resetExample with walls := repeatWalls } (by decide!)

/-! ## Invariants of every run -/

/-- C8. In every state the program can be in between two handler calls (after loading, and
after any sequence of returning calls of `update`, `handleInput`, `handleSwipe` and
`startGame`), the food cell coincides with no snake cell and with no wall cell. -/
theorem food_never_covered (N : Int) (s : State) (hr : Reachable N s) :
    s.food ∉ s.snake ∧ s.food ∉ s.walls := by
  induction hr with
  | boot stored rs rest s h =>
    unfold boot at h
    split at h
    · exact Except.noConfusion h
    · rename_i s1 more hreset
      simp only [Except.ok.injEq, Prod.mk.injEq] at h
      rw [← h.1]
      exact resetGame_food N rs more _ s1 hreset
  | step e rs rest s t _ h ih =>
    cases e with
    | tick => exact update_food N rs rest s t ih h
    | key k =>
      simp only [step, Except.ok.injEq, Prod.mk.injEq] at h
      have f := handleInput_frame k s
      rw [← h.1, f.1, f.2.1, f.2.2]
      exact ih
    | swipe sx sy ex ey =>
      simp only [step, Except.ok.injEq, Prod.mk.injEq] at h
      have f := handleSwipe_frame sx sy ex ey s
      rw [← h.1, f.1, f.2.1, f.2.2]
      exact ih
    | start => exact startGame_food N rs rest s t ih h

/-- Instance of C8 with `N = 20`: the state the script is in after loading with
`bootSamples`. -/
theorem food_never_covered_witness :
    Reachable 20 bootExample ∧
      bootExample.food ∉ bootExample.snake ∧ bootExample.food ∉ bootExample.walls :=
  have h : Reachable 20 bootExample :=
    Reachable.boot none bootSamples [] bootExample (by decide!)
  ⟨h, food_never_covered 20 bootExample h⟩

/-! ## Facts about the input handlers -/

theorem isDirection_coords (v : Point) (h : isDirection v) :
    (v.x = 0 ∧ v.y = -1) ∨ (v.x = 0 ∧ v.y = 1) ∨ (v.x = -1 ∧ v.y = 0) ∨ (v.x = 1 ∧ v.y = 0) := by
  rcases h with rfl | rfl | rfl | rfl <;> simp

theorem keyDirection_cases (k : String) (d : Point) (h : keyDirection k = some d) :
    (k = "ArrowUp" ∧ d = ⟨0, -1⟩) ∨ (k = "ArrowDown" ∧ d = ⟨0, 1⟩) ∨
      (k = "ArrowLeft" ∧ d = ⟨-1, 0⟩) ∨ (k = "ArrowRight" ∧ d = ⟨1, 0⟩) := by
  unfold keyDirection at h
  split_ifs at h with h1 h2 h3 h4
  · exact Or.inl ⟨h1, (Option.some.inj h).symm⟩
  · exact Or.inr (Or.inl ⟨h2, (Option.some.inj h).symm⟩)
  · exact Or.inr (Or.inr (Or.inl ⟨h3, (Option.some.inj h).symm⟩))
  · exact Or.inr (Or.inr (Or.inr ⟨h4, (Option.some.inj h).symm⟩))

theorem handleInput_of_none (k : String) (s : State) (h : keyDirection k = none) :
    handleInput k s = s := by
  unfold keyDirection at h
  unfold handleInput
  split_ifs at h with h1 h2 h3 h4
  simp [h1, h2, h3, h4]

theorem handleInput_idle (k : String) (s : State) (h : s.isGameRunning = false) :
    handleInput k s = s := by
  unfold handleInput
  simp [h]

theorem handleInput_accept (k : String) (d : Point) (s : State) (hk : keyDirection k = some d)
    (hv : isDirection s.velocity) (hrun : s.isGameRunning = true)
    (hd : d ≠ opposite s.velocity) : handleInput k s = { s with nextVelocity := d } := by
  have hc := isDirection_coords s.velocity hv
  have hop : opposite s.velocity = ⟨-s.velocity.x, -s.velocity.y⟩ := rfl
  rw [hop] at hd
  unfold handleInput
  rcases keyDirection_cases k d hk with ⟨rfl, rfl⟩ | ⟨rfl, rfl⟩ | ⟨rfl, rfl⟩ | ⟨rfl, rfl⟩ <;>
    rcases hc with ⟨hx, hy⟩ | ⟨hx, hy⟩ | ⟨hx, hy⟩ | ⟨hx, hy⟩ <;>
    simp [hx, hy, hrun] at hd ⊢

theorem handleInput_reject (k : String) (d : Point) (s : State) (hk : keyDirection k = some d)
    (hv : isDirection s.velocity) (hd : d = opposite s.velocity) : handleInput k s = s := by
  have hc := isDirection_coords s.velocity hv
  have hop : opposite s.velocity = ⟨-s.velocity.x, -s.velocity.y⟩ := rfl
  rw [hop] at hd
  unfold handleInput
  rcases keyDirection_cases k d hk with ⟨rfl, rfl⟩ | ⟨rfl, rfl⟩ | ⟨rfl, rfl⟩ | ⟨rfl, rfl⟩ <;>
    rcases hc with ⟨hx, hy⟩ | ⟨hx, hy⟩ | ⟨hx, hy⟩ | ⟨hx, hy⟩ <;>
    simp [hx, hy] at hd ⊢


theorem handleSwipe_reject (sx sy ex ey : Rat) (s : State) (hv : isDirection s.velocity)
    (hd : swipeDirection sx sy ex ey = some (opposite s.velocity)) :
    handleSwipe sx sy ex ey s = s := by
  have hc := isDirection_coords s.velocity hv
  have hop : opposite s.velocity = ⟨-s.velocity.x, -s.velocity.y⟩ := rfl
  rw [hop] at hd
  unfold swipeDirection at hd
  unfold handleSwipe
  dsimp only
  rcases hc with ⟨hx, hy⟩ | ⟨hx, hy⟩ | ⟨hx, hy⟩ | ⟨hx, hy⟩ <;>
    split_ifs at hd ⊢ <;> simp_all <;> exact absurd (by assumption) (not_lt.2 (le_of_lt (by assumption)))

theorem handleSwipe_cases (sx sy ex ey : Rat) (s : State) (hv : isDirection s.velocity) :
    handleSwipe sx sy ex ey s = s ∨
      ∃ d, isDirection d ∧ d ≠ opposite s.velocity ∧
        handleSwipe sx sy ex ey s = { s with nextVelocity := d } := by
  have hc := isDirection_coords s.velocity hv
  have hop : opposite s.velocity = ⟨-s.velocity.x, -s.velocity.y⟩ := rfl
  unfold handleSwipe
  dsimp only
  split_ifs with h1 h2 h3 h4 h5
  · exact Or.inr ⟨⟨1, 0⟩, by unfold isDirection; simp, by
      rw [hop]; intro e; simp only [Point.mk.injEq] at e; omega, rfl⟩
  · exact Or.inr ⟨⟨-1, 0⟩, by unfold isDirection; simp, by
      rw [hop]; intro e; simp only [Point.mk.injEq] at e; omega, rfl⟩
  · exact Or.inl rfl
  · exact Or.inr ⟨⟨0, 1⟩, by unfold isDirection; simp, by
      rw [hop]; intro e; simp only [Point.mk.injEq] at e; omega, rfl⟩
  · exact Or.inr ⟨⟨0, -1⟩, by unfold isDirection; simp, by
      rw [hop]; intro e; simp only [Point.mk.injEq] at e; omega, rfl⟩
  · exact Or.inl rfl

theorem handleInput_cases (k : String) (s : State) (hv : isDirection s.velocity) :
    handleInput k s = s ∨
      ∃ d, isDirection d ∧ d ≠ opposite s.velocity ∧
        handleInput k s = { s with nextVelocity := d } := by
  cases hk : keyDirection k with
  | none => exact Or.inl (handleInput_of_none k s hk)
  | some d =>
    by_cases hrun : s.isGameRunning = true
    · by_cases hd : d = opposite s.velocity
      · exact Or.inl (handleInput_reject k d s hk hv hd)
      · refine Or.inr ⟨d, ?_, hd, handleInput_accept k d s hk hv hrun hd⟩
        rcases keyDirection_cases k d hk with ⟨_, rfl⟩ | ⟨_, rfl⟩ | ⟨_, rfl⟩ | ⟨_, rfl⟩ <;>
          unfold isDirection <;> simp
    · exact Or.inl (handleInput_idle k s (by simpa using hrun))


theorem update_shape (N : Int) (rs rest : List Sample) (s t : State)
    (hu : update N rs s = Except.ok (t, rest)) :
    ∃ h tl, s.snake = h :: tl ∧ t.velocity = s.nextVelocity ∧
      t.nextVelocity = s.nextVelocity ∧
      (((nextHead N h s.nextVelocity ∈ s.walls ∨ nextHead N h s.nextVelocity ∈ s.snake) ∧
          t.snake = s.snake ∧ t.isGameRunning = false) ∨
        (nextHead N h s.nextVelocity ∉ s.snake ∧ t.isGameRunning = s.isGameRunning ∧
          (t.snake = nextHead N h s.nextVelocity :: s.snake ∨
            t.snake = nextHead N h s.nextVelocity :: s.snake.dropLast))) := by
  cases hs : s.snake with
  | nil =>
    unfold update at hu
    simp only [hs] at hu
    exact Except.noConfusion hu
  | cons hd tl =>
    refine ⟨hd, tl, rfl, ?_⟩
    rw [← hs]
    by_cases hc : nextHead N hd s.nextVelocity ∈ s.walls ∨ nextHead N hd s.nextVelocity ∈ s.snake
    · rw [update_collision N rs s hd tl hs hc] at hu
      simp only [Except.ok.injEq, Prod.mk.injEq] at hu
      have hg := gameOver_frame (commit s)
      rw [← hu.1]
      exact ⟨hg.2.2.2.2.1, hg.2.2.2.2.2.1, Or.inl ⟨hc, hg.1, gameOver_isGameRunning _⟩⟩
    · rw [not_or] at hc
      by_cases hf : nextHead N hd s.nextVelocity = s.food
      · rcases update_eat_outcome N rs s hd tl hs hc.1 hc.2 hf with
          he | ⟨s4, rs1, s5, rs2, h4, h5, hu2⟩
        · rw [he] at hu
          exact Except.noConfusion hu
        · rw [hu2] at hu
          simp only [Except.ok.injEq, Prod.mk.injEq] at hu
          have c := createParticles_frame _ _ _ _ _ _ _ h4
          have p := placeFood_frame _ _ _ _ _ h5
          rw [← hu.1]
          refine ⟨?_, ?_, Or.inr ⟨hc.2, ?_, Or.inl ?_⟩⟩
          · show s5.velocity = s.nextVelocity
            rw [p.2.2.2.2.1, c.2.2.2.2.2.1]; rfl
          · show s5.nextVelocity = s.nextVelocity
            rw [p.2.2.2.2.2.1, c.2.2.2.2.2.2.1]; rfl
          · show s5.isGameRunning = s.isGameRunning
            rw [p.2.2.2.1, c.2.2.2.2.1]; rfl
          · show s5.snake = _
            rw [p.1, c.1, hf]; rfl
      · rw [update_plain N rs s hd tl hs hc.1 hc.2 hf] at hu
        simp only [Except.ok.injEq, Prod.mk.injEq] at hu
        rw [← hu.1]
        exact ⟨rfl, rfl, Or.inr ⟨hc.2, rfl, Or.inr rfl⟩⟩

/-! ## Input -/

/-- C11. In a running state whose committed velocity `V` is a direction, the arrow key for
`-V` and every swipe that `handleSwipe` maps to `-V` leave the state, `nextVelocity`
included, as it was; so the next `update` does what it would have done without the input,
and the velocity it commits is `V` when `nextVelocity` was `V`. -/
theorem reverse_input_rejected (N : Int) (s : State) (_hrun : s.isGameRunning = true)
    (hv : isDirection s.velocity) :
    (∀ k, keyDirection k = some (opposite s.velocity) →
        handleInput k s = s ∧ (handleInput k s).nextVelocity = s.nextVelocity ∧
        ∀ rs, update N rs (handleInput k s) = update N rs s) ∧
      (∀ sx sy ex ey, swipeDirection sx sy ex ey = some (opposite s.velocity) →
        handleSwipe sx sy ex ey s = s ∧
        (handleSwipe sx sy ex ey s).nextVelocity = s.nextVelocity ∧
        ∀ rs, update N rs (handleSwipe sx sy ex ey s) = update N rs s) ∧
      (s.nextVelocity = s.velocity →
        (∀ k rs t rest, keyDirection k = some (opposite s.velocity) →
          update N rs (handleInput k s) = Except.ok (t, rest) → t.velocity = s.velocity) ∧
        (∀ sx sy ex ey rs t rest, swipeDirection sx sy ex ey = some (opposite s.velocity) →
          update N rs (handleSwipe sx sy ex ey s) = Except.ok (t, rest) →
          t.velocity = s.velocity)) := by
  have hkey : ∀ k, keyDirection k = some (opposite s.velocity) → handleInput k s = s :=
    fun k hk => handleInput_reject k _ s hk hv rfl
  have hswipe : ∀ sx sy ex ey, swipeDirection sx sy ex ey = some (opposite s.velocity) →
      handleSwipe sx sy ex ey s = s :=
    fun sx sy ex ey hd => handleSwipe_reject sx sy ex ey s hv hd
  refine ⟨?_, ?_, ?_⟩
  · intro k hk
    rw [hkey k hk]
    exact ⟨rfl, rfl, fun _ => rfl⟩
  · intro sx sy ex ey hd
    rw [hswipe sx sy ex ey hd]
    exact ⟨rfl, rfl, fun _ => rfl⟩
  · intro hnv
    constructor
    · intro k rs t rest hk hu
      rw [hkey k hk] at hu
      obtain ⟨_, _, _, h1, _⟩ := update_shape N rs rest s t hu
      rw [h1, hnv]
    · intro sx sy ex ey rs t rest hd hu
      rw [hswipe sx sy ex ey hd] at hu
      obtain ⟨_, _, _, h1, _⟩ := update_shape N rs rest s t hu
      rw [h1, hnv]

/-- Instance of C11 with `N = 20`: the snake of `plainExample` moves up; the key `ArrowDown`
and a downward swipe change nothing, and the next tick still commits the velocity up. -/
theorem reverse_input_rejected_witness :
    handleInput "ArrowDown" plainExample = plainExample ∧
      handleSwipe 0 0 0 50 plainExample = plainExample ∧
      ∀ t rest, update 20 [] (handleInput "ArrowDown" plainExample) = Except.ok (t, rest) →
        t.velocity = ⟨0, -1⟩ :=
  have key := reverse_input_rejected 20 plainExample rfl (by decide)
  ⟨(key.1 "ArrowDown" (by decide)).1, (key.2.1 0 0 0 50 (by decide!)).1,
    fun t rest hu => (key.2.2 rfl).1 "ArrowDown" [] t rest (by decide) hu⟩

/-- C12. For a state whose committed velocity is a direction and an arrow key with
direction `d`: when the game is running and `d` is not the reverse of the committed
velocity, `handleInput` sets `nextVelocity` to `d`, whatever `nextVelocity` held; otherwise
it changes nothing.  A key that is no arrow key changes nothing.  In every case the
velocity, snake, food, walls, score, running flag, high score and particles are unchanged. -/
theorem handleInput_accepts_iff_legal (s : State) (k : String) (hv : isDirection s.velocity) :
    (∀ d, keyDirection k = some d →
        (s.isGameRunning = true ∧ d ≠ opposite s.velocity →
          handleInput k s = { s with nextVelocity := d }) ∧
        (¬ (s.isGameRunning = true ∧ d ≠ opposite s.velocity) → handleInput k s = s)) ∧
      (keyDirection k = none → handleInput k s = s) ∧
      ((handleInput k s).velocity = s.velocity ∧ (handleInput k s).snake = s.snake ∧
        (handleInput k s).food = s.food ∧ (handleInput k s).walls = s.walls ∧
        (handleInput k s).score = s.score ∧
        (handleInput k s).isGameRunning = s.isGameRunning ∧
        (handleInput k s).highScore = s.highScore ∧ (handleInput k s).stored = s.stored ∧
        (handleInput k s).particles = s.particles) := by
  refine ⟨?_, handleInput_of_none k s, ?_⟩
  · intro d hk
    constructor
    · intro h
      exact handleInput_accept k d s hk hv h.1 h.2
    · intro h
      by_cases hrun : s.isGameRunning = true
      · have hd : d = opposite s.velocity := by
          by_contra hne
          exact h ⟨hrun, hne⟩
        exact handleInput_reject k d s hk hv hd
      · exact handleInput_idle k s (by simpa using hrun)
  · rcases handleInput_cases k s hv with h | ⟨d, _, _, h⟩ <;> rw [h] <;>
      exact ⟨rfl, rfl, rfl, rfl, rfl, rfl, rfl, rfl, rfl⟩

/-- Instance of C12: in `plainExample`, moving up with `nextVelocity` up, the key
`ArrowLeft` is accepted; a second key `ArrowRight` before the tick is accepted too, because
the check reads the committed velocity; `ArrowDown` is rejected. -/
theorem handleInput_accepts_iff_legal_witness :
    handleInput "ArrowLeft" plainExample = { plainExample with nextVelocity := ⟨-1, 0⟩ } ∧
      handleInput "ArrowRight" (handleInput "ArrowLeft" plainExample) =
        { plainExample with nextVelocity := ⟨1, 0⟩ } ∧
      handleInput "ArrowDown" plainExample = plainExample :=
  ⟨((handleInput_accepts_iff_legal plainExample "ArrowLeft" (by decide)).1 ⟨-1, 0⟩
      (by decide)).1 ⟨rfl, by decide⟩,
    by
      rw [((handleInput_accepts_iff_legal plainExample "ArrowLeft" (by decide)).1 ⟨-1, 0⟩
        (by decide)).1 ⟨rfl, by decide⟩]
      exact ((handleInput_accepts_iff_legal { plainExample with nextVelocity := ⟨-1, 0⟩ }
        "ArrowRight" (by decide)).1 ⟨1, 0⟩ (by decide)).1 ⟨rfl, by decide⟩,
    ((handleInput_accepts_iff_legal plainExample "ArrowDown" (by decide)).1 ⟨0, 1⟩
      (by decide)).2 (by decide)⟩

/-- C13, the code at the failing input. After loading, the game is not running; the key
`ArrowRight` leaves the state as it is, but a swipe to the right sets `nextVelocity` to
`(1,0)`: `handleSwipe` has no test of `isGameRunning`. -/
theorem handleSwipe_changes_idle_state :
    bootExample.isGameRunning = false ∧
      handleInput "ArrowRight" bootExample = bootExample ∧
      bootExample.nextVelocity = ⟨0, -1⟩ ∧
      handleSwipe 0 0 100 0 bootExample = { bootExample with nextVelocity := ⟨1, 0⟩ } ∧
      handleSwipe 0 0 100 0 bootExample ≠ bootExample :=
  ⟨rfl, by decide, rfl, by decide!, by decide!⟩


/-! ## What `resetGame` and `startGame` return -/

theorem resetGame_ok (N : Int) (rs rest : List Sample) (s t : State)
    (h : resetGame N rs s = Except.ok (t, rest)) :
    ∃ walls food rs1,
      generateWallsLoop N resetSnake wallCount [] rs = Except.ok (walls, rs1) ∧
      placeFoodLoop N resetSnake walls rs1 = Except.ok (food, rest) ∧
      t = { s with
        snake := resetSnake
        velocity := ⟨0, -1⟩
        nextVelocity := ⟨0, -1⟩
        score := 0
        particles := []
        walls := walls
        food := food } := by
  unfold resetGame generateWalls placeFood at h
  dsimp only at h
  rcases hg : generateWallsLoop N resetSnake wallCount [] rs with e | ⟨walls, rs1⟩
  · unfold resetSnake at hg
    rw [hg] at h
    exact Except.noConfusion h
  · rcases hp : placeFoodLoop N resetSnake walls rs1 with e | ⟨food, rest2⟩
    · unfold resetSnake at hg hp
      rw [hg] at h
      dsimp only at h
      rw [hp] at h
      exact Except.noConfusion h
    · refine ⟨walls, food, rs1, rfl, ?_, ?_⟩
      · unfold resetSnake at hg hp
        rw [hg] at h
        dsimp only at h
        rw [hp] at h
        simp only [Except.ok.injEq, Prod.mk.injEq] at h
        rw [← h.2]
        exact hp
      · unfold resetSnake at hg hp
        rw [hg] at h
        dsimp only at h
        rw [hp] at h
        simp only [Except.ok.injEq, Prod.mk.injEq] at h
        rw [← h.1]
        rfl

theorem startGame_cases (N : Int) (rs rest : List Sample) (s t : State)
    (h : startGame N rs s = Except.ok (t, rest)) :
    (s.isGameRunning = true ∧ t = s ∧ rest = rs) ∨
      (s.isGameRunning = false ∧ ∃ walls food rs1,
        generateWallsLoop N resetSnake wallCount [] rs = Except.ok (walls, rs1) ∧
        placeFoodLoop N resetSnake walls rs1 = Except.ok (food, rest) ∧
        t = { s with
          snake := resetSnake
          velocity := ⟨0, -1⟩
          nextVelocity := ⟨0, -1⟩
          score := 0
          particles := []
          walls := walls
          food := food
          isGameRunning := true }) := by
  unfold startGame at h
  split at h
  · rename_i hrun
    simp only [Except.ok.injEq, Prod.mk.injEq] at h
    exact Or.inl ⟨hrun, h.1.symm, h.2.symm⟩
  · rename_i hrun
    split at h
    · exact Except.noConfusion h
    · rename_i s1 more hr
      simp only [Except.ok.injEq, Prod.mk.injEq] at h
      obtain ⟨walls, food, rs1, h1, h2, h3⟩ := resetGame_ok N rs more s s1 hr
      refine Or.inr ⟨by simpa using hrun, walls, food, rs1, h1, ?_, ?_⟩
      · rw [← h.2]; exact h2
      · rw [← h.1, h3]

theorem boot_ok (N : Int) (stored : Option String) (rs rest : List Sample) (t : State)
    (h : boot N stored rs = Except.ok (t, rest)) :
    ∃ walls food,
      t = { loadState stored with
        snake := resetSnake
        velocity := ⟨0, -1⟩
        nextVelocity := ⟨0, -1⟩
        score := 0
        particles := []
        walls := walls
        food := food } := by
  unfold boot at h
  split at h
  · exact Except.noConfusion h
  · rename_i s1 more hr
    simp only [Except.ok.injEq, Prod.mk.injEq] at h
    obtain ⟨walls, food, rs1, _, _, h3⟩ := resetGame_ok N rs more _ s1 hr
    refine ⟨walls, food, ?_⟩
    rw [← h.1, h3]
    rfl


/-! ## Runs -/

theorem wrap_range_of_pos (N c : Int) (hN : 1 ≤ N) : 0 ≤ wrap N c ∧ wrap N c < N := by
  rcases lt_or_le c 0 with h | h
  · rw [wrap_of_neg N c h]; omega
  · rcases lt_or_le c N with h2 | h2
    · rw [wrap_of_mem N c h h2]; omega
    · rw [wrap_of_ge N c hN h2]; omega

theorem reachable_run (N : Int) :
    ∀ (evs : List (Event × List Sample)) (s t : State), Reachable N s →
      run N evs s = Except.ok t → Reachable N t := by
  intro evs
  induction evs with
  | nil =>
    intro s t hr h
    simp only [run, Except.ok.injEq] at h
    exact h ▸ hr
  | cons ev more ih =>
    intro s t hr h
    obtain ⟨e, rs⟩ := ev
    unfold run at h
    rcases hstep : step N e rs s with f | ⟨u, rest⟩
    · rw [hstep] at h
      exact Except.noConfusion h
    · rw [hstep] at h
      exact ih u t (Reachable.step e rs rest s u hr hstep) h


/-! ## The velocity variables -/

theorem direction_ne_opposite (v : Point) (h : isDirection v) : v ≠ opposite v := by
  rcases h with rfl | rfl | rfl | rfl <;> decide

theorem velocityInvariant_of_up (s : State) (h1 : s.velocity = ⟨0, -1⟩)
    (h2 : s.nextVelocity = ⟨0, -1⟩) : velocityInvariant s := by
  unfold velocityInvariant
  rw [h1, h2]
  decide

theorem update_velocityInvariant (N : Int) (rs rest : List Sample) (s t : State)
    (hi : velocityInvariant s) (h : update N rs s = Except.ok (t, rest)) :
    velocityInvariant t := by
  obtain ⟨_, _, _, h1, h2, _⟩ := update_shape N rs rest s t h
  unfold velocityInvariant
  rw [h1, h2]
  exact ⟨hi.2.1, hi.2.1, direction_ne_opposite _ hi.2.1⟩

theorem handleInput_velocityInvariant (k : String) (s : State) (hi : velocityInvariant s) :
    velocityInvariant (handleInput k s) ∧ (handleInput k s).velocity = s.velocity := by
  rcases handleInput_cases k s hi.1 with h | ⟨d, hd, hne, h⟩ <;> rw [h]
  · exact ⟨hi, rfl⟩
  · exact ⟨⟨hi.1, hd, hne⟩, rfl⟩

theorem handleSwipe_velocityInvariant (sx sy ex ey : Rat) (s : State)
    (hi : velocityInvariant s) :
    velocityInvariant (handleSwipe sx sy ex ey s) ∧
      (handleSwipe sx sy ex ey s).velocity = s.velocity := by
  rcases handleSwipe_cases sx sy ex ey s hi.1 with h | ⟨d, hd, hne, h⟩ <;> rw [h]
  · exact ⟨hi, rfl⟩
  · exact ⟨⟨hi.1, hd, hne⟩, rfl⟩

theorem startGame_velocityInvariant (N : Int) (rs rest : List Sample) (s t : State)
    (hi : velocityInvariant s) (h : startGame N rs s = Except.ok (t, rest)) :
    velocityInvariant t := by
  rcases startGame_cases N rs rest s t h with ⟨_, h1, _⟩ | ⟨_, walls, food, rs1, _, _, h1⟩
  · rw [h1]; exact hi
  · rw [h1]; exact velocityInvariant_of_up _ rfl rfl

theorem step_velocityInvariant (N : Int) (e : Event) (rs rest : List Sample) (s t : State)
    (hi : velocityInvariant s) (h : step N e rs s = Except.ok (t, rest)) :
    velocityInvariant t := by
  cases e with
  | tick => exact update_velocityInvariant N rs rest s t hi h
  | key k =>
    simp only [step, Except.ok.injEq, Prod.mk.injEq] at h
    rw [← h.1]
    exact (handleInput_velocityInvariant k s hi).1
  | swipe sx sy ex ey =>
    simp only [step, Except.ok.injEq, Prod.mk.injEq] at h
    rw [← h.1]
    exact (handleSwipe_velocityInvariant sx sy ex ey s hi).1
  | start => exact startGame_velocityInvariant N rs rest s t hi h

theorem reachable_velocityInvariant (N : Int) (s : State) (hr : Reachable N s) :
    velocityInvariant s := by
  induction hr with
  | boot stored rs rest s h =>
    obtain ⟨walls, food, h1⟩ := boot_ok N stored rs rest s h
    rw [h1]
    exact velocityInvariant_of_up _ rfl rfl
  | step e rs rest s t _ h ih => exact step_velocityInvariant N e rs rest s t ih h

theorem marks_chain (N : Int) :
    ∀ (evs : List (Event × List Sample)) (s : State) (m : Option Point),
      velocityInvariant s → (∀ v, m = some v → s.velocity = v) →
      List.Chain noReversal m (marks N evs s) := by
  intro evs
  induction evs with
  | nil =>
    intro s m _ _
    exact List.Chain.nil
  | cons ev more ih =>
    intro s m hi hm
    obtain ⟨e, rs⟩ := ev
    unfold marks
    rcases hstep : step N e rs s with f | ⟨t, rest⟩
    · exact List.Chain.nil
    · have hit := step_velocityInvariant N e rs rest s t hi hstep
      cases e with
      | tick =>
        dsimp only
        obtain ⟨_, _, _, h1, _⟩ := update_shape N rs rest s t hstep
        refine List.Chain.cons ?_ (ih t (some t.velocity) hit (fun v hv => Option.some.inj hv))
        intro v w hv hw
        rw [← Option.some.inj hw, h1, ← hm v hv]
        exact hi.2.2
      | key k =>
        dsimp only
        simp only [step, Except.ok.injEq, Prod.mk.injEq] at hstep
        refine ih t m hit (fun v hv => ?_)
        rw [← hstep.1, (handleInput_velocityInvariant k s hi).2]
        exact hm v hv
      | swipe sx sy ex ey =>
        dsimp only
        simp only [step, Except.ok.injEq, Prod.mk.injEq] at hstep
        refine ih t m hit (fun v hv => ?_)
        rw [← hstep.1, (handleSwipe_velocityInvariant sx sy ex ey s hi).2]
        exact hm v hv
      | start =>
        dsimp only
        split
        · rename_i hrun
          rcases startGame_cases N rs rest s t hstep with ⟨_, h1, _⟩ | ⟨h0, _⟩
          · refine ih t m hit (fun v hv => ?_)
            rw [h1]
            exact hm v hv
          · rw [hrun] at h0
            exact Bool.noConfusion h0
        · refine List.Chain.cons ?_ (ih t none hit (fun v hv => Option.noConfusion hv))
          intro v w _ hw
          exact Option.noConfusion hw

/-! ## Invariants of the velocity -/

/-- C14, counterexample. On the 20-tile grid, from the state after loading: a game in which
the last two ticks commit the velocity down ends on a wall; after the restart the next tick
commits the velocity up, the reverse of what the tick before it committed. -/
theorem restart_reverses_committed_velocity :
    Reachable 20 bootExample ∧
      commits 20 crashRun bootExample = [⟨-1, 0⟩, ⟨0, 1⟩, ⟨0, 1⟩, ⟨0, -1⟩] ∧
      (⟨0, -1⟩ : Point) = opposite ⟨0, 1⟩ :=
  ⟨Reachable.boot none bootSamples [] bootExample (by decide!), by decide!, by decide⟩

/-- C14, amended. In every state the program can be in between two handler calls,
`velocity` and `nextVelocity` are each one of the four directions and `nextVelocity` is not
the reverse of `velocity`; so the velocity an `update` commits is never the reverse of the
value `velocity` had at the call, and in every continuation of the run the velocity
committed by an `update` is never the reverse of the velocity committed by the `update`
before it, unless `startGame` has run `resetGame` between the two. -/
theorem no_instant_reversal (N : Int) (s : State) (hr : Reachable N s) :
    (isDirection s.velocity ∧ isDirection s.nextVelocity ∧
        s.nextVelocity ≠ opposite s.velocity) ∧
      (∀ rs t rest, update N rs s = Except.ok (t, rest) →
        t.velocity = s.nextVelocity ∧ t.velocity ≠ opposite s.velocity) ∧
      (∀ evs, List.Chain' noReversal (marks N evs s)) := by
  have hi := reachable_velocityInvariant N s hr
  refine ⟨hi, ?_, ?_⟩
  · intro rs t rest hu
    obtain ⟨_, _, _, h1, _⟩ := update_shape N rs rest s t hu
    rw [h1]
    exact ⟨rfl, hi.2.2⟩
  · intro evs
    have hc := marks_chain N evs s none hi (fun v hv => Option.noConfusion hv)
    have hc2 : List.Chain' noReversal (none :: marks N evs s) := hc
    exact hc2.tail

/-- Instance of the amended C14 with `N = 20`: in the run `crashRun` from the state after
loading, the commits left, down, down of the first game and the commit up after the restart
are separated by the reset. -/
theorem no_instant_reversal_witness :
    marks 20 crashRun bootExample =
        [none, some ⟨-1, 0⟩, some ⟨0, 1⟩, some ⟨0, 1⟩, none, some ⟨0, -1⟩] ∧
      List.Chain' noReversal (marks 20 crashRun bootExample) :=
  ⟨by decide!,
    (no_instant_reversal 20 bootExample
      (Reachable.boot none bootSamples [] bootExample (by decide!))).2.2 crashRun⟩


/-! ## The snake -/

theorem step_snake (N : Int) (e : Event) (rs rest : List Sample) (s t : State)
    (hi : s.snake ≠ [] ∧ s.snake.Nodup) (h : step N e rs s = Except.ok (t, rest)) :
    t.snake ≠ [] ∧ t.snake.Nodup := by
  cases e with
  | tick =>
    obtain ⟨hd, tl, _, _, _, hc⟩ := update_shape N rs rest s t h
    rcases hc with ⟨_, h1, _⟩ | ⟨hnot, _, h1 | h1⟩
    · rw [h1]; exact hi
    · rw [h1]
      exact ⟨List.cons_ne_nil _ _, List.nodup_cons.2 ⟨hnot, hi.2⟩⟩
    · rw [h1]
      refine ⟨List.cons_ne_nil _ _, List.nodup_cons.2 ⟨?_, ?_⟩⟩
      · exact fun hm => hnot (List.mem_of_mem_dropLast hm)
      · exact hi.2.sublist (List.dropLast_sublist _)
  | key k =>
    simp only [step, Except.ok.injEq, Prod.mk.injEq] at h
    rw [← h.1, (handleInput_frame k s).1]
    exact hi
  | swipe sx sy ex ey =>
    simp only [step, Except.ok.injEq, Prod.mk.injEq] at h
    rw [← h.1, (handleSwipe_frame sx sy ex ey s).1]
    exact hi
  | start =>
    rcases startGame_cases N rs rest s t h with ⟨_, h1, _⟩ | ⟨_, walls, food, rs1, _, _, h1⟩
    · rw [h1]; exact hi
    · rw [h1]
      exact ⟨(by decide : resetSnake ≠ []), (by decide : resetSnake.Nodup)⟩

theorem wrap_back (N x a : Int) (hN : 1 ≤ N) (h0 : 0 ≤ x) (h1 : x < N)
    (ha : a = -1 ∨ a = 0 ∨ a = 1) : wrap N (wrap N (x + a) + -a) = x := by
  unfold wrap
  rcases ha with rfl | rfl | rfl <;> dsimp only <;> split_ifs <;> omega

theorem wrap_apart (N x a b : Int) (hN : 3 ≤ N) (h0 : 0 ≤ x) (h1 : x < N)
    (ha : a = -1 ∨ a = 0 ∨ a = 1) (hb : b = -1 ∨ b = 0 ∨ b = 1) (hab : a ≠ b) :
    wrap N (x + a) ≠ wrap N (x + b) := by
  unfold wrap
  rcases ha with rfl | rfl | rfl <;> rcases hb with rfl | rfl | rfl <;> dsimp only <;>
    split_ifs <;> omega

theorem nextHead_range (N : Int) (h v : Point) (hN : 1 ≤ N) :
    (0 ≤ (nextHead N h v).x ∧ (nextHead N h v).x < N) ∧
      (0 ≤ (nextHead N h v).y ∧ (nextHead N h v).y < N) := by
  have hx := wrap_range_of_pos N (h.x + v.x) hN
  have hy := wrap_range_of_pos N (h.y + v.y) hN
  exact ⟨hx, hy⟩

theorem nextHead_back (N : Int) (h v : Point) (hN : 1 ≤ N) (hx : 0 ≤ h.x ∧ h.x < N)
    (hy : 0 ≤ h.y ∧ h.y < N) (hv : isDirection v) :
    nextHead N (nextHead N h v) (opposite v) = h := by
  have hc := isDirection_coords v hv
  have ex : wrap N (wrap N (h.x + v.x) + -v.x) = h.x :=
    wrap_back N h.x v.x hN hx.1 hx.2 (by omega)
  have ey : wrap N (wrap N (h.y + v.y) + -v.y) = h.y :=
    wrap_back N h.y v.y hN hy.1 hy.2 (by omega)
  cases h
  simp only [nextHead, opposite, Point.mk.injEq] at ex ey ⊢
  exact ⟨ex, ey⟩

theorem nextHead_apart (N : Int) (h a b : Point) (hN : 3 ≤ N) (hx : 0 ≤ h.x ∧ h.x < N)
    (hy : 0 ≤ h.y ∧ h.y < N) (ha : isDirection a) (hb : isDirection b) (hab : a ≠ b) :
    nextHead N h a ≠ nextHead N h b := by
  have ca := isDirection_coords a ha
  have cb := isDirection_coords b hb
  intro e
  simp only [nextHead, Point.mk.injEq] at e
  by_cases hxx : a.x = b.x
  · have hyy : a.y ≠ b.y := by
      intro hyy
      apply hab
      cases a; cases b
      simp only [Point.mk.injEq]
      exact ⟨hxx, hyy⟩
    exact wrap_apart N h.y a.y b.y hN hy.1 hy.2 (by omega) (by omega) hyy e.2
  · exact wrap_apart N h.x a.x b.x hN hx.1 hx.2 (by omega) (by omega) hxx e.1

theorem opposite_isDirection (v : Point) (h : isDirection v) : isDirection (opposite v) := by
  rcases h with rfl | rfl | rfl | rfl <;> decide

theorem opposite_injective (a b : Point) (h : opposite a = opposite b) : a = b := by
  cases a; cases b
  simp only [opposite, Point.mk.injEq, neg_inj] at h
  simp only [Point.mk.injEq]
  exact h

theorem step_neckInvariant (N : Int) (hN : 17 ≤ N) (e : Event) (rs rest : List Sample)
    (s t : State) (hv : velocityInvariant s) (hi : neckInvariant N s)
    (h : step N e rs s = Except.ok (t, rest)) : neckInvariant N t := by
  cases e with
  | tick =>
    obtain ⟨hd, tl, hs, h1, _, hc⟩ := update_shape N rs rest s t h
    intro hrun
    rcases hc with ⟨_, _, h3⟩ | ⟨_, h2, h3⟩
    · rw [h3] at hrun
      exact Bool.noConfusion hrun
    · rw [h2] at hrun
      obtain ⟨h0, n, more, hs2, hx, hy, _⟩ := hi hrun
      have e0 : hd = h0 := by
        rw [hs2] at hs
        exact (List.cons.inj hs).1.symm
      subst e0
      have hr := nextHead_range N hd s.nextVelocity (by omega)
      have hb := nextHead_back N hd s.nextVelocity (by omega) hx hy hv.2.1
      rcases h3 with h3 | h3
      · refine ⟨nextHead N hd s.nextVelocity, hd, n :: more, ?_, hr.1, hr.2, ?_⟩
        · rw [h3, hs2]
        · rw [h1, hb]
      · refine ⟨nextHead N hd s.nextVelocity, hd, (n :: more).dropLast, ?_, hr.1, hr.2, ?_⟩
        · rw [h3, hs2]
          rfl
        · rw [h1, hb]
  | key k =>
    simp only [step, Except.ok.injEq, Prod.mk.injEq] at h
    rw [← h.1]
    rcases handleInput_cases k s hv.1 with h1 | ⟨d, _, _, h1⟩ <;> rw [h1] <;> exact hi
  | swipe sx sy ex ey =>
    simp only [step, Except.ok.injEq, Prod.mk.injEq] at h
    rw [← h.1]
    rcases handleSwipe_cases sx sy ex ey s hv.1 with h1 | ⟨d, _, _, h1⟩ <;> rw [h1] <;> exact hi
  | start =>
    rcases startGame_cases N rs rest s t h with ⟨_, h1, _⟩ | ⟨_, walls, food, rs1, _, _, h1⟩
    · rw [h1]; exact hi
    · rw [h1]
      intro _
      refine ⟨⟨10, 15⟩, ⟨10, 16⟩, [⟨10, 17⟩], rfl,
        ⟨(by decide : (0 : Int) ≤ 10), (by omega : (10 : Int) < N)⟩,
        ⟨(by decide : (0 : Int) ≤ 15), (by omega : (15 : Int) < N)⟩, ?_⟩
      show (⟨10, 16⟩ : Point) = ⟨wrap N (10 + -0), wrap N (15 + - -1)⟩
      rw [wrap_of_mem N _ (by decide) (by omega), wrap_of_mem N _ (by decide) (by omega)]
      rfl

theorem reachable_snake (N : Int) (s : State) (hr : Reachable N s) :
    s.snake ≠ [] ∧ s.snake.Nodup := by
  induction hr with
  | boot stored rs rest s h =>
    obtain ⟨walls, food, h1⟩ := boot_ok N stored rs rest s h
    rw [h1]
    exact ⟨(by decide : resetSnake ≠ []), (by decide : resetSnake.Nodup)⟩
  | step e rs rest s t _ h ih => exact step_snake N e rs rest s t ih h

theorem reachable_neckInvariant (N : Int) (hN : 17 ≤ N) (s : State) (hr : Reachable N s) :
    neckInvariant N s := by
  induction hr with
  | boot stored rs rest s h =>
    obtain ⟨walls, food, h1⟩ := boot_ok N stored rs rest s h
    rw [h1]
    intro hrun
    exact Bool.noConfusion hrun
  | step e rs rest s t hs h ih =>
    exact step_neckInvariant N hN e rs rest s t (reachable_velocityInvariant N s hs) ih h

/-! ## Invariants of the snake -/

/-- C15. In every state the program can be in between two handler calls, on the 20-tile
grid and on any other, the snake is non-empty and contains no cell twice. -/
theorem snake_well_formed (N : Int) (s : State) (hr : Reachable N s) :
    s.snake ≠ [] ∧ s.snake.Nodup :=
  reachable_snake N s hr

/-- Instance of C15 with `N = 20`: the state after the run `crashRun`, a game lost and a
second game started and advanced by one tick. -/
theorem snake_well_formed_witness :
    run 20 crashRun bootExample =
        Except.ok { startedExample with
          walls := List.replicate 15 ⟨9, 17⟩, snake := [⟨10, 14⟩, ⟨10, 15⟩, ⟨10, 16⟩] } ∧
      ([⟨10, 14⟩, ⟨10, 15⟩, ⟨10, 16⟩] : List Point) ≠ [] ∧
      ([⟨10, 14⟩, ⟨10, 15⟩, ⟨10, 16⟩] : List Point).Nodup :=
  have h : run 20 crashRun bootExample =
      Except.ok { startedExample with
        walls := List.replicate 15 ⟨9, 17⟩, snake := [⟨10, 14⟩, ⟨10, 15⟩, ⟨10, 16⟩] } := by
    decide!
  ⟨h, snake_well_formed 20 _ (reachable_run 20 crashRun bootExample _
    (Reachable.boot none bootSamples [] bootExample (by decide!)) h)⟩

/-- C20. On the 20-tile grid, in every running state the program can be in between two
handler calls, the snake has a second cell, that cell is the head moved one step against the
committed velocity and wrapped, and the new head that the next `update` computes from
`nextVelocity` is not that second cell. -/
theorem never_steps_onto_neck (s : State) (hr : Reachable 20 s)
    (hrun : s.isGameRunning = true) :
    ∃ h n rest, s.snake = h :: n :: rest ∧
      n = ⟨wrap 20 (h.x - s.velocity.x), wrap 20 (h.y - s.velocity.y)⟩ ∧
      nextHead 20 h s.nextVelocity ≠ n := by
  have hv := reachable_velocityInvariant 20 s hr
  obtain ⟨h, n, rest, hs, hx, hy, hn⟩ := reachable_neckInvariant 20 (by decide) s hr hrun
  refine ⟨h, n, rest, hs, ?_, ?_⟩
  · rw [hn]
    simp only [nextHead, opposite, sub_eq_add_neg]
  · rw [hn]
    refine nextHead_apart 20 h _ _ (by decide) hx hy hv.2.1 (opposite_isDirection _ hv.1) hv.2.2

/-- Instance of C20: in `startedExample`, the running state after the first click on the
start button, the head `(10,15)` moves up, the second cell is `(10,16)` and the next new
head is `(10,14)`. -/
theorem never_steps_onto_neck_witness :
    Reachable 20 startedExample ∧
      ∃ h n rest, startedExample.snake = h :: n :: rest ∧
        n = ⟨wrap 20 (h.x - startedExample.velocity.x),
          wrap 20 (h.y - startedExample.velocity.y)⟩ ∧
        nextHead 20 h startedExample.nextVelocity ≠ n :=
  have h : Reachable 20 startedExample :=
    Reachable.step Event.start bootSamples [] bootExample startedExample
      (Reachable.boot none bootSamples [] bootExample (by decide!)) (by decide!)
  ⟨h, never_steps_onto_neck startedExample h rfl⟩


/-! ## High score -/

/-- C16. For an integer score and an integer high score `h`, after `gameOver` the high score
is `max h score`, which is not lower than `h`; when the score is strictly greater than `h`
the new high score is also written to the stored entry `snakeHighScore`, and otherwise
neither the high score nor the stored entry changes. -/
theorem gameOver_high_score_max (s : State) (h : Int) (hh : s.highScore = HighScore.num h) :
    (gameOver s).highScore = HighScore.num (max h s.score) ∧ h ≤ max h s.score ∧
      (h < s.score → (gameOver s).stored = some (toString s.score)) ∧
      (¬ h < s.score →
        (gameOver s).highScore = s.highScore ∧ (gameOver s).stored = s.stored) := by
  unfold gameOver
  dsimp only
  rw [hh]
  by_cases hlt : h < s.score
  · have e : scoreExceeds s.score (HighScore.num h) = true := by
      simp [scoreExceeds, hlt]
    rw [if_pos e]
    exact ⟨by rw [max_eq_right hlt.le], le_max_left _ _, fun _ => rfl, fun hn => absurd hlt hn⟩
  · have e : ¬ scoreExceeds s.score (HighScore.num h) = true := by
      simp [scoreExceeds, hlt]
    rw [if_neg e]
    exact ⟨by rw [max_eq_left (not_lt.1 hlt)], le_max_left _ _, fun hp => absurd hp hlt,
      fun _ => ⟨rfl, rfl⟩⟩

/-- Instance of C16: with high score 50, a game over at score 20 keeps 50 and the stored
entry, and a game over at score 70 makes the high score 70 and stores the text `70`. -/
theorem gameOver_high_score_max_witness :
    ((gameOver wallHitExample).highScore = HighScore.num (max 50 20) ∧
        (gameOver wallHitExample).stored = some "50") ∧
      ((gameOver { wallHitExample with score := 70 }).highScore = HighScore.num (max 50 70) ∧
        (gameOver { wallHitExample with score := 70 }).stored = some "70") :=
  ⟨⟨(gameOver_high_score_max wallHitExample 50 rfl).1,
      ((gameOver_high_score_max wallHitExample 50 rfl).2.2.2 (by decide)).2⟩,
    ⟨(gameOver_high_score_max { wallHitExample with score := 70 } 50 rfl).1,
      (gameOver_high_score_max { wallHitExample with score := 70 } 50 rfl).2.2.1
        (by decide)⟩⟩

/-- C18, the code at the failing input. With the text `abc` stored, the high score the
script loads is that text, not `0`; the text converts to `NaN`, so the game over of
`corruptExample` at score 10 leaves the high score and the stored entry as they were.  With
no entry the loaded high score is the number `0`, and with the text `50` it is the text
`50`, which a game over at score 70 replaces by the number 70. -/
theorem corrupt_high_score_never_updates :
    (loadState (some "abc")).highScore = HighScore.str "abc" ∧
      stringToNumber "abc" = JSNumber.nan ∧
      corruptExample.score = 10 ∧
      update 20 [] corruptExample =
        Except.ok ({ corruptExample with isGameRunning := false }, []) ∧
      (loadState none).highScore = HighScore.num 0 ∧
      (loadState (some "50")).highScore = HighScore.str "50" ∧
      (gameOver { loadState (some "50") with score := 70 }).highScore = HighScore.num 70 :=
  ⟨by decide!, by decide!, rfl, by decide!, rfl, by decide!, by decide!⟩

/-! ## Particles -/

/-- C19, the code at the failing input. Nineteen ticks after the snake of `eatExample` has
eaten, its ten particles have life `0.05` left.  The two-phase update removes all ten in the
next frame; the loop of `draw`, called by the next `update`, removes the particles with an
even index and leaves the five with an odd index as they were, neither moved nor faded:
after `splice` the next particle takes the index just visited and `forEach` passes it. -/
theorem particle_loop_skips_after_removal :
    run 20 burstRun eatExample = Except.ok fadedExample ∧
      fadedExample.particles = fadingBatch ∧
      twoPhaseParticles fadingBatch = [] ∧
      particleLoop fadingBatch.length 0 fadingBatch = fadingSurvivors ∧
      (∃ t, update 20 [] fadedExample = Except.ok (t, []) ∧ t.particles = fadingSurvivors) ∧
      fadingSurvivors ≠ twoPhaseParticles fadingBatch :=
  ⟨by decide!, rfl, by decide!, by decide!,
    ⟨{ fadedExample with
        snake := [⟨10, 15⟩, ⟨10, 16⟩, ⟨10, 17⟩, ⟨10, 18⟩], particles := fadingSurvivors },
      by decide!, rfl⟩,
    by decide!⟩


/-! ## Samples on which `resetGame` returns -/

theorem sampleWall_accept (N : Int) (h : Point) (tl : List Point) (rx ry : Sample)
    (rest : List Sample) (h1 : cellOf N (rx, ry) ∉ h :: tl)
    (h2 : 3 ≤ manhattan (cellOf N (rx, ry)) h) :
    sampleWall N (h :: tl) (rx :: ry :: rest) = Except.ok (cellOf N (rx, ry), rest) := by
  rw [← hits_eq_false_iff] at h1
  unfold cellOf at h1 h2 ⊢
  dsimp only at h1 h2 ⊢
  have h3 : ¬ manhattan ⟨randomCoord N rx, randomCoord N ry⟩ h < 3 := not_lt.2 h2
  simp only [sampleWall, h1, h3, if_false, Bool.false_eq_true]

theorem generateWallsLoop_returns (N : Int) (h : Point) (tl : List Point)
    (tail : List Sample) :
    ∀ (cells : List (Sample × Sample)) (acc : List Point),
      (∀ c ∈ cells, cellOf N c ∉ h :: tl ∧ 3 ≤ manhattan (cellOf N c) h) →
      generateWallsLoop N (h :: tl) cells.length acc (flatPairs cells ++ tail) =
        Except.ok (acc ++ cells.map (cellOf N), tail) := by
  intro cells
  induction cells with
  | nil =>
    intro acc _
    simp [generateWallsLoop, flatPairs]
  | cons c more ih =>
    intro acc hc
    obtain ⟨rx, ry⟩ := c
    have h0 := hc (rx, ry) (List.mem_cons_self _ _)
    simp only [List.length_cons, flatPairs, List.cons_append, generateWallsLoop]
    rw [sampleWall_accept N h tl rx ry _ h0.1 h0.2]
    dsimp only
    rw [ih (acc ++ [cellOf N (rx, ry)]) (fun c hm => hc c (List.mem_cons_of_mem _ hm))]
    simp

theorem resetGame_returns (N : Int) (s : State) (cells : List (Sample × Sample))
    (pre post : List Sample) (rx ry : Sample) (k : Nat) (hlen : cells.length = 15)
    (hc : ∀ c ∈ cells, cellOf N c ∉ resetSnake ∧ 3 ≤ manhattan (cellOf N c) ⟨10, 15⟩)
    (hpre : pre.length = 2 * k) (hs : cellOf N (rx, ry) ∉ resetSnake)
    (hw : cellOf N (rx, ry) ∉ cells.map (cellOf N)) :
    ∃ t rest,
      resetGame N (flatPairs cells ++ (pre ++ rx :: ry :: post)) s = Except.ok (t, rest) := by
  have hg := generateWallsLoop_returns N ⟨10, 15⟩ [⟨10, 16⟩, ⟨10, 17⟩]
    (pre ++ rx :: ry :: post) cells [] hc
  rw [hlen, List.nil_append] at hg
  obtain ⟨food, rest, hp⟩ := placeFoodLoop_returns N resetSnake (cells.map (cellOf N)) rx ry
    post hs hw k pre hpre
  have key : resetGame N (flatPairs cells ++ (pre ++ rx :: ry :: post)) s =
      Except.ok ({ s with
        snake := resetSnake
        velocity := ⟨0, -1⟩
        nextVelocity := ⟨0, -1⟩
        score := 0
        particles := []
        walls := cells.map (cellOf N)
        food := food }, rest) := by
    unfold resetGame generateWalls placeFood
    dsimp only
    have hg2 : generateWallsLoop N [⟨10, 15⟩, ⟨10, 16⟩, ⟨10, 17⟩] wallCount []
        (flatPairs cells ++ (pre ++ rx :: ry :: post)) =
        Except.ok (cells.map (cellOf N), pre ++ rx :: ry :: post) := hg
    rw [hg2]
    dsimp only
    have hp2 : placeFoodLoop N [⟨10, 15⟩, ⟨10, 16⟩, ⟨10, 17⟩] (cells.map (cellOf N))
        (pre ++ rx :: ry :: post) = Except.ok (food, rest) := hp
    rw [hp2]
    rfl
  exact ⟨_, rest, key⟩

/-! ## Start and reset -/

/-- C17. `startGame` returns the state unchanged when the game is running.  When it is not
running, every state it returns has the snake `[(10,15),(10,16),(10,17)]`, velocity and
`nextVelocity` up, score 0, no particles, the running flag set, the high score and its
stored entry unchanged, and walls and food generated anew: the walls are what the loop of
`generateWalls` returns for the new snake on the samples of the call, and the food is what
the loop of `placeFood` returns for the new snake and these walls on the samples that
follow.  It returns when the samples begin with fifteen pairs that each give a cell off the
new snake and at distance at least 3 from its head and go on, after an even number of
values, with a pair that gives a cell off the new snake and these walls. -/
theorem startGame_resets (N : Int) (rs : List Sample) (s : State) :
    (s.isGameRunning = true → startGame N rs s = Except.ok (s, rs)) ∧
      (s.isGameRunning = false → ∀ t rest, startGame N rs s = Except.ok (t, rest) →
        t.snake = [⟨10, 15⟩, ⟨10, 16⟩, ⟨10, 17⟩] ∧ t.velocity = ⟨0, -1⟩ ∧
        t.nextVelocity = ⟨0, -1⟩ ∧ t.score = 0 ∧ t.particles = [] ∧
        t.isGameRunning = true ∧ t.highScore = s.highScore ∧ t.stored = s.stored ∧
        ∃ rs1,
          generateWallsLoop N [⟨10, 15⟩, ⟨10, 16⟩, ⟨10, 17⟩] 15 [] rs =
            Except.ok (t.walls, rs1) ∧
          placeFoodLoop N [⟨10, 15⟩, ⟨10, 16⟩, ⟨10, 17⟩] t.walls rs1 =
            Except.ok (t.food, rest)) ∧
      (s.isGameRunning = false →
        ∀ (cells : List (Sample × Sample)) (pre post : List Sample) (rx ry : Sample) (k : Nat),
          rs = flatPairs cells ++ (pre ++ rx :: ry :: post) → cells.length = 15 →
          (∀ c ∈ cells, cellOf N c ∉ resetSnake ∧ 3 ≤ manhattan (cellOf N c) ⟨10, 15⟩) →
          pre.length = 2 * k → cellOf N (rx, ry) ∉ resetSnake →
          cellOf N (rx, ry) ∉ cells.map (cellOf N) →
          ∃ t rest, startGame N rs s = Except.ok (t, rest)) := by
  refine ⟨?_, ?_, ?_⟩
  · intro hrun
    unfold startGame
    rw [if_pos hrun]
  · intro hrun t rest h
    rcases startGame_cases N rs rest s t h with ⟨h0, _⟩ | ⟨_, walls, food, rs1, hg, hp, h1⟩
    · rw [hrun] at h0
      exact Bool.noConfusion h0
    · rw [h1]
      exact ⟨rfl, rfl, rfl, rfl, rfl, rfl, rfl, rfl, rs1, hg, hp⟩
  · intro hrun cells pre post rx ry k hrs hlen hc hpre hs hw
    obtain ⟨t, rest, hr⟩ := resetGame_returns N s cells pre post rx ry k hlen hc hpre hs hw
    refine ⟨{ t with isGameRunning := true }, rest, ?_⟩
    unfold startGame
    rw [hrun, hrs, hr]
    rfl

/-- Instance of C17 with `N = 20`: a click on the start button in `bootExample`, the state
after loading, with `bootSamples` drawn again; a second click changes nothing; and on
`bootSamples` the call returns from every state that is not running. -/
theorem startGame_resets_witness :
    startGame 20 bootSamples bootExample = Except.ok (startedExample, []) ∧
      startedExample.snake = [⟨10, 15⟩, ⟨10, 16⟩, ⟨10, 17⟩] ∧
      startedExample.velocity = ⟨0, -1⟩ ∧ startedExample.score = 0 ∧
      startedExample.isGameRunning = true ∧
      startedExample.highScore = bootExample.highScore ∧
      startGame 20 bootSamples startedExample = Except.ok (startedExample, bootSamples) ∧
      ∀ s : State, s.isGameRunning = false →
        ∃ t rest, startGame 20 bootSamples s = Except.ok (t, rest) :=
  have h : startGame 20 bootSamples bootExample = Except.ok (startedExample, []) := by
    decide!
  have key := (startGame_resets 20 bootSamples bootExample).2.1 rfl startedExample [] h
  ⟨h, key.1, key.2.1, key.2.2.2.1, key.2.2.2.2.2.1, key.2.2.2.2.2.2.1,
    (startGame_resets 20 bootSamples startedExample).1 rfl,
    fun s hs => (startGame_resets 20 bootSamples s).2.2 hs
      [(tile 0, zero), (tile 1, zero), (tile 2, zero), (tile 3, zero), (tile 4, zero),
        (tile 5, zero), (tile 6, zero), (tile 7, zero), (tile 8, zero), (tile 9, zero),
        (tile 10, zero), (tile 11, zero), (tile 12, zero), (tile 13, zero), (tile 0, zero)]
      [] [] half half 0 rfl rfl (by decide!) rfl (by decide!) (by decide!)⟩

end Snake
